import Mathlib

/-!
A shallow embedding of the workflow (saga) orchestration engine from
`src/core/workflow/types.ts` (the `WorkflowJob` class), together with proofs
about its behaviour.

Modelling conventions:
* Step `execute` and `compensate` functions, observer handlers and metric-sink
  calls are effectful in the source; here each is modelled by the outcome it
  produces during the execution under study (`Except String _`, the `error`
  case standing for a thrown error carrying its message).
* Timestamps (`startedAt`, `completedAt`, `durationMs`) and the shared-state
  record are not modelled: no proved property mentions them.
* `emitEvent` invokes all observers jointly (`Promise.all` in the source); the
  joint outcome is modelled by one function `onEvent`.  As in the source, no
  event is constructed when no observer is registered.
* Ghost logs (`events`, `compCalls`, `metricCalls`) record which events were
  delivered, which compensation functions were invoked, and which metric
  recordings were attempted; they have no influence on control flow.
* Error message strings follow the source texts, without the single quotes
  the source puts around interpolated identifiers.
-/

namespace Workflow

/-- Model of `WorkflowStepStatus` from the source. -/
inductive Status where
  | pending
  | in_progress
  | completed
  | failed
  | compensated
deriving DecidableEq, Repr

/-- Model of `WorkflowEventType` from the source. -/
inductive EventType where
  | workflow_start
  | workflow_completed
  | workflow_failed
  | step_start
  | step_completed
  | step_failed
  | step_compensated
deriving DecidableEq, Repr

/-- Model of `WorkflowStepSnapshot` (timestamps omitted, see module comment). -/
structure Snapshot where
  id : String
  status : Status
  error : Option String := none
deriving DecidableEq, Repr

/-- Model of `WorkflowEvent` restricted to the fields the claims mention
(`type`, `stepId`, `error`); the `snapshot` and `result` payloads are
not modelled. -/
structure WEvent where
  type : EventType
  stepId : Option String := none
  error : Option String := none
deriving DecidableEq, Repr

/-- One attempted metric recording (ghost data; `true` stands for the
outcome string `success`). -/
inductive MetricCall where
  | step (id : String) (ok : Bool)
  | comp (id : String)
  | completion (ok : Bool)
deriving DecidableEq, Repr

instance {ε γ : Type} [DecidableEq ε] [DecidableEq γ] : DecidableEq (Except ε γ) :=
  fun x y =>
    match x, y with
    | Except.ok a, Except.ok b =>
      if h : a = b then isTrue (by rw [h]) else isFalse (by simp [h])
    | Except.error a, Except.error b =>
      if h : a = b then isTrue (by rw [h]) else isFalse (by simp [h])
    | Except.ok _, Except.error _ => isFalse (by simp)
    | Except.error _, Except.ok _ => isFalse (by simp)

/-- Model of `WorkflowStepDefinition`, with the execution and compensation
functions replaced by the outcome they produce in the run under study.
`compensate = none` models a step that declares no compensation function. -/
structure Step (α : Type) where
  id : String
  dependsOn : List String := []
  execute : Except String α
  compensate : Option (Except String Unit) := none
deriving DecidableEq

/-- The metrics adapter of `WorkflowJobOptions`, each call modelled by its
outcome (`error` = the sink throws). -/
structure Metrics where
  recordStep : String → Bool → Except String Unit
  recordCompensation : String → Except String Unit
  recordWorkflowCompletion : Bool → Except String Unit

/-- A `WorkflowJob` instance: its step list, whether any observer is
registered, the joint observer outcome per event, and the optional
metrics adapter. -/
structure Config (α : Type) where
  steps : List (Step α)
  hasObservers : Bool := false
  onEvent : WEvent → Except String Unit := fun _ => Except.ok ()
  metrics : Option Metrics := none

/-- Model of `WorkflowRuntimeState` plus the ghost logs. -/
structure RState (α : Type) where
  snapshots : List Snapshot := []
  stepResults : List (String × α) := []
  events : List WEvent := []
  compCalls : List String := []
  metricCalls : List MetricCall := []
deriving DecidableEq

/-- The success variant of `WorkflowResult` (fields the claims mention). -/
structure SuccessR (α : Type) where
  result : Option α
  steps : List Snapshot
deriving DecidableEq, Repr

/-- The failure variant of `WorkflowResult` (fields the claims mention). -/
structure FailureR where
  error : String
  steps : List Snapshot
deriving DecidableEq, Repr

/-- Everything observable about one call of `WorkflowJob.execute`:
the returned value or raised error, the failure variant if one was built,
the final runtime state, the new `stepsValidated` flag, and whether
`validateSteps` ran during this call. -/
structure ExecOutput (α : Type) where
  retval : Except String (SuccessR α)
  builtFailure : Option FailureR := none
  snapshots : List Snapshot := []
  stepResults : List (String × α) := []
  events : List WEvent := []
  compCalls : List String := []
  metricCalls : List MetricCall := []
  stepsValidated : Bool
  validationRan : Bool

/-- Model of `Map.set` semantics of `runtime.stepResults.set`. -/
def setResult : List (String × α) → String → α → List (String × α)
  | [], id, v => [(id, v)]
  | (k, w) :: rest, id, v =>
    if k = id then (k, v) :: rest else (k, w) :: setResult rest id v

/-- Model of `runtime.stepResults.get`. -/
def lookupResult (l : List (String × α)) (id : String) : Option α :=
  (l.find? (fun p => p.1 == id)).map (fun p => p.2)

/-- Model of `updateSnapshotStatus`: mutate the first snapshot with the given id. -/
def updateFirst : List Snapshot → String → Status → List Snapshot
  | [], _, _ => []
  | sn :: rest, stepId, status =>
    if sn.id = stepId then { sn with status := status } :: rest
    else sn :: updateFirst rest stepId status

/-- Mutation of the snapshot object `executeStep` pushed last. -/
def modifyLast (f : Snapshot → Snapshot) : List Snapshot → List Snapshot
  | [] => []
  | [sn] => [f sn]
  | sn :: rest => sn :: modifyLast f rest

/-- Status of the (first) snapshot with a given id. -/
def statusOf (snaps : List Snapshot) (id : String) : Option Status :=
  (snaps.find? (fun sn => sn.id == id)).map (fun sn => sn.status)

/-- Error text of `validateSteps` for a duplicate id. -/
def dupMsg (id : String) : String :=
  "Workflow step ids must be unique. Duplicate: " ++ id

/-- Error text of `validateSteps` for a dependency not defined earlier. -/
def missingDepMsg (stepId dep : String) : String :=
  "Workflow step " ++ stepId ++ " depends on " ++ dep ++
    " which has not been defined earlier. Ensure steps are ordered topologically."

/-- Error text of `ensureDependenciesSatisfied`. -/
def depViolationMsg (stepId dep : String) : String :=
  "Workflow dependency violation: step " ++ stepId ++
    " attempted before dependency " ++ dep ++ " completed."

/-- The loop body of `validateSteps`; as in the source, the step id is added
to the seen set BEFORE its `dependsOn` entries are checked. -/
def validateStepsGo : List String → List (Step α) → Except String Unit
  | _, [] => Except.ok ()
  | seen, s :: rest =>
    if seen.contains s.id then Except.error (dupMsg s.id)
    else
      match s.dependsOn.find? (fun dep => !(s.id :: seen).contains dep) with
      | some dep => Except.error (missingDepMsg s.id dep)
      | none => validateStepsGo (s.id :: seen) rest

/-- Model of `WorkflowJob.validateSteps`. -/
def validateSteps (steps : List (Step α)) : Except String Unit :=
  validateStepsGo [] steps

/-- Model of `WorkflowJob.emitEvent`: constructs and delivers the event only when an
observer is registered; returns the thrown error when the joint observer
call rejects. -/
def emitEvent (cfg : Config α) (st : RState α) (type : EventType)
    (stepId : Option String) (error : Option String) : RState α × Option String :=
  if cfg.hasObservers then
    let ev : WEvent := { type := type, stepId := stepId, error := error }
    let st := { st with events := st.events ++ [ev] }
    match cfg.onEvent ev with
    | Except.ok _ => (st, none)
    | Except.error e => (st, some e)
  else (st, none)

/-- Model of `WorkflowJob.recordStepMetric` (the attempt is logged as ghost data). -/
def recordStepMetric (cfg : Config α) (st : RState α) (stepId : String)
    (ok : Bool) : RState α × Option String :=
  let st := { st with metricCalls := st.metricCalls ++ [MetricCall.step stepId ok] }
  match cfg.metrics with
  | none => (st, none)
  | some m =>
    match m.recordStep stepId ok with
    | Except.ok _ => (st, none)
    | Except.error e => (st, some e)

/-- Model of `WorkflowJob.recordCompensationMetric`. -/
def recordCompensationMetric (cfg : Config α) (st : RState α)
    (stepId : String) : RState α × Option String :=
  let st := { st with metricCalls := st.metricCalls ++ [MetricCall.comp stepId] }
  match cfg.metrics with
  | none => (st, none)
  | some m =>
    match m.recordCompensation stepId with
    | Except.ok _ => (st, none)
    | Except.error e => (st, some e)

/-- Model of `WorkflowJob.recordMetricsCompletion`. -/
def recordMetricsCompletion (cfg : Config α) (st : RState α)
    (ok : Bool) : RState α × Option String :=
  let st := { st with metricCalls := st.metricCalls ++ [MetricCall.completion ok] }
  match cfg.metrics with
  | none => (st, none)
  | some m =>
    match m.recordWorkflowCompletion ok with
    | Except.ok _ => (st, none)
    | Except.error e => (st, some e)

/-- Model of `WorkflowJob.updateSnapshotStatus` on the runtime state. -/
def updateSnapshotStatus (st : RState α) (stepId : String)
    (status : Status) : RState α :=
  { st with snapshots := updateFirst st.snapshots stepId status }

/-- Model of `WorkflowJob.ensureDependenciesSatisfied`: `some e` models the thrown
dependency-violation error. -/
def ensureDependenciesSatisfied (step : Step α) (st : RState α) : Option String :=
  if step.dependsOn.isEmpty then none
  else
    let completedIds :=
      (st.snapshots.filter (fun sn => sn.status == Status.completed)).map
        (fun sn => sn.id)
    match step.dependsOn.find? (fun dep => !completedIds.contains dep) with
    | some dep => some (depViolationMsg step.id dep)
    | none => none

/-- The `compensatableSteps` list computed at the top of
`executeCompensation`: steps declaring a compensation function whose snapshot
has status `completed`, reversed. -/
def compensatableSteps (cfg : Config α) (st : RState α) : List (Step α) :=
  ((cfg.steps.filter (fun s => s.compensate.isSome)).filter (fun s =>
      st.snapshots.any (fun sn => sn.id == s.id && sn.status == Status.completed))).reverse

/-- The `for` loop of `executeCompensation`.  One iteration: invoke the
compensation function; on success record the compensation metric, set the
snapshot to `compensated` and emit `step:compensated`; any throw inside the
iteration is caught, a `step:failed` event is emitted for the attempt, and
the caught error (or the error thrown by that very emission) terminates the
loop as the new raised error. -/
def compensationLoop (cfg : Config α) (origErr : String) :
    List (Step α) → RState α → RState α × Option String
  | [], st => (st, none)
  | step :: rest, st =>
    let st := { st with compCalls := st.compCalls ++ [step.id] }
    match step.compensate.getD (Except.ok ()) with
    | Except.error ce =>
      let (st, emitErr) := emitEvent cfg st EventType.step_failed (some step.id) (some ce)
      (st, some (emitErr.getD ce))
    | Except.ok _ =>
      match recordCompensationMetric cfg st step.id with
      | (st, some me) =>
        let (st, emitErr) := emitEvent cfg st EventType.step_failed (some step.id) (some me)
        (st, some (emitErr.getD me))
      | (st, none) =>
        let st := updateSnapshotStatus st step.id Status.compensated
        match emitEvent cfg st EventType.step_compensated (some step.id) (some origErr) with
        | (st, some ee) =>
          let (st, emitErr) := emitEvent cfg st EventType.step_failed (some step.id) (some ee)
          (st, some (emitErr.getD ee))
        | (st, none) => compensationLoop cfg origErr rest st

/-- Model of `WorkflowJob.executeCompensation`: `some e` models a compensation-path
error replacing the original one, `none` means the unwind completed and the
caller re-raises the original error. -/
def executeCompensation (cfg : Config α) (origErr : String)
    (st : RState α) : RState α × Option String :=
  compensationLoop cfg origErr (compensatableSteps cfg st) st

/-- The `catch` block of `executeStep`: mark the pushed snapshot `failed`
with the error message, record a failure metric (a throw there propagates
at once), emit `step:failed` (a throw there propagates at once), run the
compensator, then raise the compensation error if any, else the original. -/
def stepCatch (cfg : Config α) (step : Step α) (st : RState α)
    (e : String) : RState α × Option String :=
  let snaps := modifyLast
    (fun sn => { sn with status := Status.failed, error := some e }) st.snapshots
  let st := { st with snapshots := snaps }
  match recordStepMetric cfg st step.id false with
  | (st, some e2) => (st, some e2)
  | (st, none) =>
    match emitEvent cfg st EventType.step_failed (some step.id) (some e) with
    | (st, some e2) => (st, some e2)
    | (st, none) =>
      let (st, compErr) := executeCompensation cfg e st
      (st, some (compErr.getD e))

/-- Model of `WorkflowJob.executeStep`.  The dependency check and the `step:start`
emission sit outside the `try` block: an error from either propagates
without compensation.  On success of the execute function the snapshot is
marked `completed` and the output stored BEFORE the success metric and the
`step:completed` emission, so a throw from those lands in the catch block. -/
def executeStep (cfg : Config α) (step : Step α)
    (st : RState α) : RState α × Option String :=
  match ensureDependenciesSatisfied step st with
  | some e => (st, some e)
  | none =>
    let snaps := st.snapshots ++ [{ id := step.id, status := Status.in_progress }]
    let st := { st with snapshots := snaps }
    match emitEvent cfg st EventType.step_start (some step.id) none with
    | (st, some e) => (st, some e)
    | (st, none) =>
      match step.execute with
      | Except.error e => stepCatch cfg step st e
      | Except.ok out =>
        let snaps := modifyLast (fun sn => { sn with status := Status.completed }) st.snapshots
        let st := { st with snapshots := snaps, stepResults := setResult st.stepResults step.id out }
        match recordStepMetric cfg st step.id true with
        | (st, some e) => stepCatch cfg step st e
        | (st, none) =>
          match emitEvent cfg st EventType.step_completed (some step.id) none with
          | (st, some e) => stepCatch cfg step st e
          | (st, none) => (st, none)

/-- The `for` loop of `execute`: run steps in declaration order, stopping at
the first raised error. -/
def runSteps (cfg : Config α) : List (Step α) → RState α → RState α × Option String
  | [], st => (st, none)
  | s :: rest, st =>
    match executeStep cfg s st with
    | (st, none) => runSteps cfg rest st
    | (st, some e) => (st, some e)

/-- The default `onWorkflowCompleted` hook: the stored output of the last
declared step (the lookup key falls back to the empty string when the step
list is empty). -/
def defaultResult (cfg : Config α) (st : RState α) : Option α :=
  lookupResult st.stepResults (((cfg.steps.getLast?).map (fun s => s.id)).getD "")

/-- Assemble the `ExecOutput` from the final runtime state. -/
def mkOut (retval : Except String (SuccessR α)) (bf : Option FailureR)
    (st : RState α) (flag ranV : Bool) : ExecOutput α :=
  { retval := retval, builtFailure := bf, snapshots := st.snapshots,
    stepResults := st.stepResults, events := st.events,
    compCalls := st.compCalls, metricCalls := st.metricCalls,
    stepsValidated := flag, validationRan := ranV }

/-- The `catch` block of `execute`: build the failure variant, record the
completion metric (a throw there replaces the raised error and skips the
`workflow:failed` emission), emit `workflow:failed` (a throw there replaces
the raised error), then raise. -/
def executeCatch (cfg : Config α) (st : RState α) (e : String)
    (flag ranV : Bool) : ExecOutput α :=
  let failure : FailureR := { error := e, steps := st.snapshots }
  match recordMetricsCompletion cfg st false with
  | (st, some e2) => mkOut (Except.error e2) (some failure) st flag ranV
  | (st, none) =>
    match emitEvent cfg st EventType.workflow_failed none (some e) with
    | (st, some e2) => mkOut (Except.error e2) (some failure) st flag ranV
    | (st, none) => mkOut (Except.error e) (some failure) st flag ranV

/-- The body of `execute` after validation: fresh runtime state, the
`workflow:start` emission OUTSIDE the try block (a throw there propagates
with no failure variant built), the step loop, and the success path (success
variant built, completion metric, `workflow:completed` emission — a throw
from either of the last two lands in the catch block). -/
def executeBody (cfg : Config α) (flag ranV : Bool) : ExecOutput α :=
  let st : RState α := {}
  match emitEvent cfg st EventType.workflow_start none none with
  | (st, some e) => mkOut (Except.error e) none st flag ranV
  | (st, none) =>
    match runSteps cfg cfg.steps st with
    | (st, some e) => executeCatch cfg st e flag ranV
    | (st, none) =>
      let success : SuccessR α := { result := defaultResult cfg st, steps := st.snapshots }
      match recordMetricsCompletion cfg st true with
      | (st, some e) => executeCatch cfg st e flag ranV
      | (st, none) =>
        match emitEvent cfg st EventType.workflow_completed none none with
        | (st, some e) => executeCatch cfg st e flag ranV
        | (st, none) => mkOut (Except.ok success) none st flag ranV

/-- Model of `WorkflowJob.execute`, taking and returning the `stepsValidated` flag.
Validation runs only when the flag is unset; a validation error propagates
before any runtime state exists and leaves the flag unset. -/
def execute (cfg : Config α) (stepsValidated : Bool) : ExecOutput α :=
  if stepsValidated then executeBody cfg true false
  else
    match validateSteps cfg.steps with
    | Except.error e =>
      { retval := Except.error e, stepsValidated := false, validationRan := true }
    | Except.ok _ => executeBody cfg true true

/-- Joint observer behaviour that never throws. -/
def ObserversOk (cfg : Config α) : Prop :=
  ∀ ev, cfg.onEvent ev = Except.ok ()

/-- Metrics sink (when present) that never throws. -/
def MetricsOk (cfg : Config α) : Prop :=
  ∀ m, cfg.metrics = some m →
    (∀ s b, m.recordStep s b = Except.ok ()) ∧
    (∀ s, m.recordCompensation s = Except.ok ()) ∧
    (∀ b, m.recordWorkflowCompletion b = Except.ok ())

/-- Unique ids and every dependency declared strictly earlier — the shape a
step list must have for the runtime dependency check to be vacuous. -/
def wellOrdered : List String → List (Step α) → Bool
  | _, [] => true
  | seen, s :: rest =>
    !seen.contains s.id && s.dependsOn.all (fun d => seen.contains d) &&
      wellOrdered (s.id :: seen) rest

/-- Events actually delivered for a list of would-be events: all of them when
an observer is registered, none otherwise. -/
def obsEvents (cfg : Config α) (l : List WEvent) : List WEvent :=
  if cfg.hasObservers then l else []

/-- The snapshot of a step that ran to completion. -/
def completedSnap (s : Step α) : Snapshot :=
  { id := s.id, status := Status.completed }

/-- The two events a successful step delivers. -/
def stepOkEvents (s : Step α) : List WEvent :=
  [{ type := EventType.step_start, stepId := some s.id },
   { type := EventType.step_completed, stepId := some s.id }]

/-- The snapshot of a completed step after the ids in `a` have been
compensated. -/
def markSnap (a : List String) (s : Step α) : Snapshot :=
  { id := s.id, status := if s.id ∈ a then Status.compensated else Status.completed }

/-- Repeated `updateSnapshotStatus _ _ compensated`, as the compensation loop
performs it. -/
def foldUpd (snaps : List Snapshot) (ids : List String) : List Snapshot :=
  ids.foldl (fun sn i => updateFirst sn i Status.compensated) snaps

theorem markSnap_nil (s : Step α) : markSnap [] s = completedSnap s := by
  simp [markSnap, completedSnap]

theorem emitEvent_pt_ok (cfg : Config α) (st : RState α) (t : EventType)
    (sid err : Option String)
    (h : cfg.onEvent { type := t, stepId := sid, error := err } = Except.ok ()) :
    emitEvent cfg st t sid err =
      ({ st with events :=
          st.events ++ obsEvents cfg [{ type := t, stepId := sid, error := err }] }, none) := by
  unfold emitEvent obsEvents
  cases hb : cfg.hasObservers <;> simp [hb, h]

theorem emitEvent_pt_err (cfg : Config α) (st : RState α) (t : EventType)
    (sid err : Option String) (e : String) (hb : cfg.hasObservers = true)
    (h : cfg.onEvent { type := t, stepId := sid, error := err } = Except.error e) :
    emitEvent cfg st t sid err =
      ({ st with events :=
          st.events ++ [{ type := t, stepId := sid, error := err }] }, some e) := by
  unfold emitEvent
  simp [hb, h]

theorem recordStepMetric_ok (cfg : Config α) (st : RState α) (stepId : String)
    (ok : Bool) (h : MetricsOk cfg) :
    recordStepMetric cfg st stepId ok =
      ({ st with metricCalls := st.metricCalls ++ [MetricCall.step stepId ok] }, none) := by
  unfold recordStepMetric
  cases hm : cfg.metrics with
  | none => simp
  | some m => simp [(h m hm).1]

theorem recordCompensationMetric_ok (cfg : Config α) (st : RState α)
    (stepId : String) (h : MetricsOk cfg) :
    recordCompensationMetric cfg st stepId =
      ({ st with metricCalls := st.metricCalls ++ [MetricCall.comp stepId] }, none) := by
  unfold recordCompensationMetric
  cases hm : cfg.metrics with
  | none => simp
  | some m => simp [(h m hm).2.1]

theorem recordMetricsCompletion_ok (cfg : Config α) (st : RState α)
    (ok : Bool) (h : MetricsOk cfg) :
    recordMetricsCompletion cfg st ok =
      ({ st with metricCalls := st.metricCalls ++ [MetricCall.completion ok] }, none) := by
  unfold recordMetricsCompletion
  cases hm : cfg.metrics with
  | none => simp
  | some m => simp [(h m hm).2.2]

theorem modifyLast_append (f : Snapshot → Snapshot) (l : List Snapshot) (a : Snapshot) :
    modifyLast f (l ++ [a]) = l ++ [f a] := by
  induction l with
  | nil => rfl
  | cons x xs ih =>
    cases xs with
    | nil => rfl
    | cons y ys => simpa [modifyLast] using ih

theorem setResult_fresh (l : List (String × α)) (k : String) (v : α)
    (h : k ∉ l.map Prod.fst) : setResult l k v = l ++ [(k, v)] := by
  induction l with
  | nil => rfl
  | cons p ps ih =>
    simp only [List.map_cons, List.mem_cons] at h
    push_neg at h
    simp [setResult, Ne.symm h.1, ih h.2]

theorem updateFirst_not_mem (l : List Snapshot) (i : String) (stt : Status)
    (h : i ∉ l.map Snapshot.id) : updateFirst l i stt = l := by
  induction l with
  | nil => rfl
  | cons sn rest ih =>
    simp only [List.map_cons, List.mem_cons] at h
    push_neg at h
    simp [updateFirst, Ne.symm h.1, ih h.2]

theorem markSnap_id (a : List String) (s : Step α) : (markSnap a s).id = s.id := rfl

/-- The ids the runtime dependency check accepts: ids of snapshots with
status `completed`. -/
def completedIds (st : RState α) : List String :=
  (st.snapshots.filter (fun sn => sn.status == Status.completed)).map (fun sn => sn.id)

/-- Every step's dependencies lie among `done` plus the ids of the steps
before it — the invariant the sequential run maintains. -/
def depsClosed : List String → List (Step α) → Prop
  | _, [] => True
  | done, s :: rest => (∀ d ∈ s.dependsOn, d ∈ done) ∧ depsClosed (done ++ [s.id]) rest

theorem depsClosed_of_wellOrdered (steps : List (Step α)) :
    ∀ seen done, (∀ x ∈ seen, x ∈ done) → wellOrdered seen steps = true →
      depsClosed done steps := by
  induction steps with
  | nil => intro seen done _ _; trivial
  | cons s rest ih =>
    intro seen done hsub hwo
    simp only [wellOrdered, Bool.and_eq_true, List.all_eq_true] at hwo
    refine ⟨fun d hd => hsub d ?_, ?_⟩
    · have := hwo.1.2 d hd
      simpa using this
    · refine ih (s.id :: seen) (done ++ [s.id]) ?_ hwo.2
      intro x hx
      rcases List.mem_cons.mp hx with h | h
      · simp [h]
      · simp [hsub x h]

theorem wellOrdered_nodup (steps : List (Step α)) :
    ∀ seen, wellOrdered seen steps = true →
      (steps.map Step.id).Nodup ∧ ∀ s ∈ steps, s.id ∉ seen := by
  induction steps with
  | nil => intro seen _; simp
  | cons s rest ih =>
    intro seen hwo
    simp only [wellOrdered, Bool.and_eq_true] at hwo
    obtain ⟨⟨hns, _⟩, hrec⟩ := hwo
    obtain ⟨hnd, hseen⟩ := ih (s.id :: seen) hrec
    constructor
    · refine List.nodup_cons.mpr ⟨?_, hnd⟩
      intro hmem
      obtain ⟨q, hq, hqid⟩ := List.mem_map.mp hmem
      exact absurd (hqid ▸ List.mem_cons_self s.id seen) (by simpa [hqid] using hseen q hq)
    · intro q hq
      rcases List.mem_cons.mp hq with h | h
      · subst h; simpa using hns
      · exact fun hmem => hseen q h (List.mem_cons_of_mem _ hmem)

theorem validateSteps_of_wellOrdered (steps : List (Step α)) :
    ∀ seen, wellOrdered seen steps = true → validateStepsGo seen steps = Except.ok () := by
  induction steps with
  | nil => intro seen _; rfl
  | cons s rest ih =>
    intro seen hwo
    simp only [wellOrdered, Bool.and_eq_true, List.all_eq_true] at hwo
    obtain ⟨⟨hns, hdeps⟩, hrec⟩ := hwo
    have hfind : s.dependsOn.find? (fun dep => !(s.id :: seen).contains dep) = none := by
      refine List.find?_eq_none.mpr (fun d hd => ?_)
      have hmem : d ∈ seen := by simpa using hdeps d hd
      simp [hmem]
    simp only [validateStepsGo]
    rw [if_neg (by simpa using hns), hfind]
    exact ih (s.id :: seen) hrec

/-- Dependencies of the step between `L1` and `L2` all lie among `seen` and
the ids of `L1`. -/
theorem wellOrdered_mid (L1 : List (Step α)) (s : Step α) (L2 : List (Step α)) :
    ∀ seen, wellOrdered seen (L1 ++ s :: L2) = true →
      ∀ d ∈ s.dependsOn, d ∈ seen ∨ d ∈ L1.map Step.id := by
  induction L1 with
  | nil =>
    intro seen hwo d hd
    simp only [List.nil_append, wellOrdered, Bool.and_eq_true, List.all_eq_true] at hwo
    exact Or.inl (by simpa using hwo.1.2 d hd)
  | cons p ps ih =>
    intro seen hwo d hd
    simp only [List.cons_append, wellOrdered, Bool.and_eq_true] at hwo
    rcases ih (p.id :: seen) hwo.2 d hd with h | h
    · rcases List.mem_cons.mp h with h' | h'
      · exact Or.inr (by simp [h'])
      · exact Or.inl h'
    · exact Or.inr (by simp [h])

theorem wellOrdered_append_left (L1 L2 : List (Step α)) :
    ∀ seen, wellOrdered seen (L1 ++ L2) = true → wellOrdered seen L1 = true := by
  induction L1 with
  | nil => intro seen _; rfl
  | cons p ps ih =>
    intro seen hwo
    simp only [List.cons_append, wellOrdered, Bool.and_eq_true] at hwo ⊢
    exact ⟨hwo.1, ih (p.id :: seen) hwo.2⟩

theorem ensureDeps_none (step : Step α) (st : RState α)
    (h : ∀ d ∈ step.dependsOn, d ∈ completedIds st) :
    ensureDependenciesSatisfied step st = none := by
  unfold ensureDependenciesSatisfied
  by_cases he : step.dependsOn.isEmpty
  · simp [he]
  · have hfind : step.dependsOn.find?
        (fun dep => !decide (dep ∈ (st.snapshots.filter
          (fun sn => sn.status == Status.completed)).map (fun sn => sn.id))) = none := by
      refine List.find?_eq_none.mpr (fun d hd => ?_)
      have hmem := h d hd
      simp only [completedIds] at hmem
      simp [hmem]
    simp [he, hfind]

theorem obsEvents_append (cfg : Config α) (l1 l2 : List WEvent) :
    obsEvents cfg l1 ++ obsEvents cfg l2 = obsEvents cfg (l1 ++ l2) := by
  unfold obsEvents
  cases cfg.hasObservers <;> simp

theorem completedIds_snoc (st : RState α) (s : Step α) :
    completedIds { st with snapshots := st.snapshots ++ [completedSnap s] } =
      completedIds st ++ [s.id] := by
  simp [completedIds, completedSnap, List.filter_append]

theorem completedIds_eq_of_snapshots (st st' : RState α) (s : Step α)
    (h : st'.snapshots = st.snapshots ++ [completedSnap s]) :
    completedIds st' = completedIds st ++ [s.id] := by
  simp [completedIds, h, completedSnap, List.filter_append]

theorem executeStep_ok (cfg : Config α) (step : Step α) (st : RState α) (v : α)
    (hdep : ensureDependenciesSatisfied step st = none)
    (hex : step.execute = Except.ok v)
    (hkey : step.id ∉ st.stepResults.map Prod.fst)
    (hes : cfg.onEvent { type := EventType.step_start, stepId := some step.id } = Except.ok ())
    (hec : cfg.onEvent { type := EventType.step_completed, stepId := some step.id } = Except.ok ())
    (hm : MetricsOk cfg) :
    executeStep cfg step st =
      ({ st with
          snapshots := st.snapshots ++ [completedSnap step],
          stepResults := st.stepResults ++ [(step.id, v)],
          events := st.events ++ obsEvents cfg (stepOkEvents step),
          metricCalls := st.metricCalls ++ [MetricCall.step step.id true] }, none) := by
  simp only [executeStep, hdep]
  rw [emitEvent_pt_ok _ _ _ _ _ hes]
  dsimp only
  simp only [hex]
  rw [modifyLast_append, recordStepMetric_ok _ _ _ _ hm]
  dsimp only
  rw [emitEvent_pt_ok _ _ _ _ _ hec]
  dsimp only
  simp [setResult_fresh _ _ _ hkey, obsEvents_append, completedSnap, stepOkEvents]

theorem runSteps_append (cfg : Config α) (L1 L2 : List (Step α)) (st : RState α) :
    runSteps cfg (L1 ++ L2) st =
      match runSteps cfg L1 st with
      | (st', none) => runSteps cfg L2 st'
      | (st', some e) => (st', some e) := by
  induction L1 generalizing st with
  | nil => simp [runSteps]
  | cons s ss ih =>
    simp only [List.cons_append, runSteps]
    rcases executeStep cfg s st with ⟨st', r⟩
    cases r <;> simp [ih]

theorem runSteps_ok (cfg : Config α) (steps : List (Step α)) (v : Step α → α)
    (st : RState α) (done : List String)
    (hex : ∀ s ∈ steps, s.execute = Except.ok (v s))
    (hdone : completedIds st = done)
    (hdeps : depsClosed done steps)
    (hkeys : ∀ s ∈ steps, s.id ∉ st.stepResults.map Prod.fst)
    (hnd : (steps.map Step.id).Nodup)
    (hes : ∀ s ∈ steps,
      cfg.onEvent { type := EventType.step_start, stepId := some s.id } = Except.ok ())
    (hec : ∀ s ∈ steps,
      cfg.onEvent { type := EventType.step_completed, stepId := some s.id } = Except.ok ())
    (hm : MetricsOk cfg) :
    runSteps cfg steps st =
      ({ st with
          snapshots := st.snapshots ++ steps.map completedSnap,
          stepResults := st.stepResults ++ steps.map (fun s => (s.id, v s)),
          events := st.events ++ obsEvents cfg (steps.flatMap stepOkEvents),
          metricCalls := st.metricCalls ++ steps.map
            (fun s => MetricCall.step s.id true) }, none) := by
  induction steps generalizing st done with
  | nil => simp [runSteps, obsEvents]
  | cons s ss ih =>
    obtain ⟨hd1, hd2⟩ := hdeps
    have hdep1 : ∀ d ∈ s.dependsOn, d ∈ completedIds st := fun d hd => by
      rw [hdone]; exact hd1 d hd
    have hstep := executeStep_ok cfg s st (v s) (ensureDeps_none s st hdep1)
      (hex s (by simp)) (hkeys s (by simp)) (hes s (by simp)) (hec s (by simp)) hm
    simp only [runSteps, hstep]
    rw [ih _ (done ++ [s.id])]
    · simp [obsEvents_append, completedSnap, stepOkEvents]
    · exact fun q hq => hex q (List.mem_cons_of_mem _ hq)
    · have heq := completedIds_eq_of_snapshots st
        ({ st with
          snapshots := st.snapshots ++ [completedSnap s],
          stepResults := st.stepResults ++ [(s.id, v s)],
          events := st.events ++ obsEvents cfg (stepOkEvents s),
          metricCalls := st.metricCalls ++ [MetricCall.step s.id true] }) s rfl
      rw [heq, hdone]
    · exact hd2
    · intro q hq
      simp only [List.map_cons, List.nodup_cons] at hnd
      have hne : q.id ≠ s.id := by
        intro h
        exact hnd.1 (h ▸ List.mem_map_of_mem Step.id hq)
      simp [hne, hkeys q (List.mem_cons_of_mem _ hq)]
    · simp only [List.map_cons, List.nodup_cons] at hnd
      exact hnd.2
    · exact fun q hq => hes q (List.mem_cons_of_mem _ hq)
    · exact fun q hq => hec q (List.mem_cons_of_mem _ hq)

theorem lookupResult_map (steps : List (Step α)) (v : Step α → α) (s0 : Step α)
    (hmem : s0 ∈ steps) (hnd : (steps.map Step.id).Nodup) :
    lookupResult (steps.map (fun s => (s.id, v s))) s0.id = some (v s0) := by
  induction steps with
  | nil => cases hmem
  | cons s ss ih =>
    simp only [List.map_cons, List.nodup_cons] at hnd
    rcases List.mem_cons.mp hmem with h | h
    · subst h
      simp [lookupResult, List.find?]
    · have hne : s.id ≠ s0.id := by
        intro he
        exact hnd.1 (he ▸ List.mem_map_of_mem Step.id h)
      have hbeq : (s.id == s0.id) = false := by simp [hne]
      have hrec := ih h hnd.2
      simp only [lookupResult, List.map_cons, List.find?_cons] at hrec ⊢
      simp only [hbeq]
      exact hrec

theorem updateFirst_marked (pre : List (Step α)) (tail : List Snapshot)
    (a : List String) (i : String)
    (hnd : (pre.map Step.id).Nodup) (htail : i ∉ tail.map Snapshot.id) :
    updateFirst (pre.map (markSnap a) ++ tail) i Status.compensated =
      pre.map (markSnap (a ++ [i])) ++ tail := by
  induction pre generalizing a with
  | nil => simpa using updateFirst_not_mem tail i Status.compensated htail
  | cons p ps ih =>
    simp only [List.map_cons, List.nodup_cons] at hnd
    obtain ⟨hpni, hnd2⟩ := hnd
    by_cases hpi : p.id = i
    · have htl : ps.map (markSnap (a ++ [i])) = ps.map (markSnap a) := by
        refine List.map_congr_left (fun q hq => ?_)
        have hqne : q.id ≠ i := fun hqe =>
          hpni (hpi ▸ hqe ▸ List.mem_map_of_mem Step.id hq)
        simp [markSnap, hqne]
      simp only [List.cons_append, updateFirst, markSnap_id, if_pos hpi, List.map_cons, htl]
      simp [markSnap, hpi]
    · have hhead : markSnap (a ++ [i]) p = markSnap a p := by
        simp [markSnap, hpi]
      simp only [List.cons_append, updateFirst, markSnap_id, if_neg hpi, List.map_cons, hhead,
        List.append_eq]
      rw [ih a hnd2]

theorem foldUpd_marked (ids : List String) (pre : List (Step α)) (tail : List Snapshot)
    (a : List String) (hnd : (pre.map Step.id).Nodup)
    (htail : ∀ i ∈ ids, i ∉ tail.map Snapshot.id) :
    foldUpd (pre.map (markSnap a) ++ tail) ids = pre.map (markSnap (a ++ ids)) ++ tail := by
  induction ids generalizing a with
  | nil => simp [foldUpd]
  | cons i is ih =>
    show foldUpd (updateFirst (pre.map (markSnap a) ++ tail) i Status.compensated) is = _
    rw [updateFirst_marked pre tail a i hnd (htail i (by simp))]
    rw [ih (a ++ [i]) (fun j hj => htail j (by simp [hj]))]
    simp

theorem defaultResult_map (cfg : Config α) (v : Step α → α) (st : RState α)
    (hres : st.stepResults = cfg.steps.map (fun s => (s.id, v s)))
    (hnd : (cfg.steps.map Step.id).Nodup) :
    defaultResult cfg st = (cfg.steps.getLast?).map v := by
  unfold defaultResult
  rw [hres]
  cases hl : cfg.steps.getLast? with
  | none =>
    have : cfg.steps = [] := List.getLast?_eq_none_iff.mp hl
    simp [this, lookupResult]
  | some s0 =>
    have hmem : s0 ∈ cfg.steps := by
      obtain ⟨h1, h2⟩ := List.mem_getLast?_eq_getLast (l := cfg.steps) (x := s0) (by simp [hl])
      exact h2 ▸ List.getLast_mem h1
    simpa using lookupResult_map cfg.steps v s0 hmem hnd

/-- Full characterisation of `executeBody` when observers and metrics never
throw and every step's execute function succeeds. -/
theorem executeBody_allOk (cfg : Config α) (v : Step α → α) (flag ranV : Bool)
    (hex : ∀ s ∈ cfg.steps, s.execute = Except.ok (v s))
    (hwo : wellOrdered [] cfg.steps = true)
    (hobs : ObserversOk cfg) (hm : MetricsOk cfg) :
    executeBody cfg flag ranV =
      { retval := Except.ok { result := (cfg.steps.getLast?).map v,
                              steps := cfg.steps.map completedSnap },
        builtFailure := none,
        snapshots := cfg.steps.map completedSnap,
        stepResults := cfg.steps.map (fun s => (s.id, v s)),
        events := obsEvents cfg
          ({ type := EventType.workflow_start } ::
            (cfg.steps.flatMap stepOkEvents ++ [{ type := EventType.workflow_completed }])),
        compCalls := [],
        metricCalls := cfg.steps.map (fun s => MetricCall.step s.id true) ++
          [MetricCall.completion true],
        stepsValidated := flag,
        validationRan := ranV } := by
  have hnd := (wellOrdered_nodup cfg.steps [] hwo).1
  have hdc : depsClosed ([] : List String) cfg.steps :=
    depsClosed_of_wellOrdered cfg.steps [] [] (by simp) hwo
  unfold executeBody
  dsimp only
  rw [emitEvent_pt_ok _ _ _ _ _ (hobs _)]
  dsimp only
  rw [runSteps_ok cfg cfg.steps v _ [] hex (by simp [completedIds]) hdc (by simp) hnd
    (fun s _ => hobs _) (fun s _ => hobs _) hm]
  dsimp only
  rw [defaultResult_map cfg v _ (by simp) hnd]
  rw [recordMetricsCompletion_ok _ _ _ hm]
  dsimp only
  rw [emitEvent_pt_ok _ _ _ _ _ (hobs _)]
  dsimp only
  simp [mkOut, obsEvents_append]

/-- Full characterisation of `execute` when observers and metrics never
throw and every step's execute function succeeds (for both values of the
`stepsValidated` flag; validation succeeds on a well-ordered step list). -/
theorem execute_allOk (cfg : Config α) (v : Step α → α) (b : Bool)
    (hex : ∀ s ∈ cfg.steps, s.execute = Except.ok (v s))
    (hwo : wellOrdered [] cfg.steps = true)
    (hobs : ObserversOk cfg) (hm : MetricsOk cfg) :
    execute cfg b =
      { retval := Except.ok { result := (cfg.steps.getLast?).map v,
                              steps := cfg.steps.map completedSnap },
        builtFailure := none,
        snapshots := cfg.steps.map completedSnap,
        stepResults := cfg.steps.map (fun s => (s.id, v s)),
        events := obsEvents cfg
          ({ type := EventType.workflow_start } ::
            (cfg.steps.flatMap stepOkEvents ++ [{ type := EventType.workflow_completed }])),
        compCalls := [],
        metricCalls := cfg.steps.map (fun s => MetricCall.step s.id true) ++
          [MetricCall.completion true],
        stepsValidated := true,
        validationRan := !b } := by
  cases b with
  | true =>
    simp only [execute, if_true]
    exact executeBody_allOk cfg v true false hex hwo hobs hm
  | false =>
    have hval : validateSteps cfg.steps = Except.ok () :=
      validateSteps_of_wellOrdered cfg.steps [] hwo
    simp only [execute, if_false, Bool.false_eq_true, hval]
    exact executeBody_allOk cfg v true true hex hwo hobs hm

/-- C4: in every workflow execution whose steps all succeed (observers and
metrics sinks not throwing), `execute` returns a success-variant result whose
`steps` list has exactly one `completed` snapshot per declared step,
`stepResults` holds every step's output keyed by its id, no compensation
function is invoked, and no `step:compensated` event is emitted. -/
theorem all_steps_succeed_success (cfg : Config α) (v : Step α → α) (b : Bool)
    (hex : ∀ s ∈ cfg.steps, s.execute = Except.ok (v s))
    (hwo : wellOrdered [] cfg.steps = true)
    (hobs : ObserversOk cfg) (hm : MetricsOk cfg) :
    (execute cfg b).retval = Except.ok
        { result := (cfg.steps.getLast?).map v, steps := cfg.steps.map completedSnap } ∧
      (execute cfg b).snapshots = cfg.steps.map completedSnap ∧
      (∀ s ∈ cfg.steps, lookupResult (execute cfg b).stepResults s.id = some (v s)) ∧
      (execute cfg b).compCalls = [] ∧
      (∀ ev ∈ (execute cfg b).events, ev.type ≠ EventType.step_compensated) := by
  have h := execute_allOk cfg v b hex hwo hobs hm
  rw [h]
  refine ⟨rfl, rfl, ?_, rfl, ?_⟩
  · intro s hs
    exact lookupResult_map cfg.steps v s hs (wellOrdered_nodup cfg.steps [] hwo).1
  · intro ev hev
    dsimp only at hev
    unfold obsEvents at hev
    rcases hc : cfg.hasObservers with _ | _
    · rw [hc] at hev; simp at hev
    · rw [hc] at hev
      simp only [if_true] at hev
      rcases List.mem_cons.mp hev with h1 | h1
      · subst h1; simp
      · rcases List.mem_append.mp h1 with h2 | h2
        · obtain ⟨s, _, h3⟩ := List.mem_flatMap.mp h2
          unfold stepOkEvents at h3
          rcases List.mem_cons.mp h3 with h4 | h4
          · subst h4; simp
          · simp only [List.mem_singleton] at h4; subst h4; simp
        · simp only [List.mem_singleton] at h2; subst h2; simp

/-- The three-step all-success example workflow of the specification:
`[A, B dependsOn A, C dependsOn B]`. -/
def cfgAllOk : Config Nat :=
  { steps := [{ id := "A", execute := Except.ok 1 },
              { id := "B", dependsOn := ["A"], execute := Except.ok 2 },
              { id := "C", dependsOn := ["B"], execute := Except.ok 3 }] }

/-- The outputs of the example steps, as a function. -/
def valAllOk : Step Nat → Nat :=
  fun s => if s.id = "A" then 1 else if s.id = "B" then 2 else 3

/-- Witness of C4 at the specification's three-step example. -/
theorem all_steps_succeed_success_witness :
    wellOrdered [] cfgAllOk.steps = true ∧
    ((execute cfgAllOk false).retval = Except.ok
        { result := (cfgAllOk.steps.getLast?).map valAllOk,
          steps := cfgAllOk.steps.map completedSnap } ∧
      (execute cfgAllOk false).snapshots = cfgAllOk.steps.map completedSnap ∧
      (∀ s ∈ cfgAllOk.steps,
        lookupResult (execute cfgAllOk false).stepResults s.id = some (valAllOk s)) ∧
      (execute cfgAllOk false).compCalls = [] ∧
      (∀ ev ∈ (execute cfgAllOk false).events, ev.type ≠ EventType.step_compensated)) :=
  ⟨by decide,
    all_steps_succeed_success cfgAllOk valAllOk false (by decide) (by decide)
      (fun _ => rfl) (fun m h => nomatch h)⟩

/-- C8: observers registered before execution receive, for a fully
successful two-step workflow (observers and metrics sinks not throwing),
exactly the sequence `workflow:start`, `step:start`(A), `step:completed`(A),
`step:start`(B), `step:completed`(B), `workflow:completed`, and nothing
else. -/
theorem two_step_event_order (cfg : Config α) (a b : Step α) (va vb : α) (fl : Bool)
    (hsteps : cfg.steps = [a, b])
    (hon : cfg.hasObservers = true)
    (hobs : ObserversOk cfg) (hm : MetricsOk cfg)
    (hea : a.execute = Except.ok va) (heb : b.execute = Except.ok vb)
    (hwo : wellOrdered [] cfg.steps = true) :
    (execute cfg fl).events =
      [{ type := EventType.workflow_start },
       { type := EventType.step_start, stepId := some a.id },
       { type := EventType.step_completed, stepId := some a.id },
       { type := EventType.step_start, stepId := some b.id },
       { type := EventType.step_completed, stepId := some b.id },
       { type := EventType.workflow_completed }] := by
  have hab : a.id ≠ b.id := by
    intro he
    rw [hsteps] at hwo
    have hnd := (wellOrdered_nodup [a, b] [] hwo).1
    simp [he] at hnd
  have hex : ∀ s ∈ cfg.steps,
      s.execute = Except.ok ((fun s => if s.id = a.id then va else vb) s) := by
    intro s hs
    rw [hsteps] at hs
    rcases List.mem_cons.mp hs with h | h
    · subst h; simp [hea]
    · simp only [List.mem_singleton] at h; subst h; simp [heb, Ne.symm hab]
  have h := execute_allOk cfg (fun s => if s.id = a.id then va else vb) fl hex hwo hobs hm
  rw [h]
  simp [hsteps, obsEvents, hon, stepOkEvents]

/-- A two-step workflow with an observer registered. -/
def cfgTwoStep : Config Nat :=
  { steps := [{ id := "A", execute := Except.ok 10 },
              { id := "B", dependsOn := ["A"], execute := Except.ok 20 }],
    hasObservers := true }

/-- Witness of C8 at a concrete two-step workflow with an observer. -/
theorem two_step_event_order_witness :
    cfgTwoStep.hasObservers = true ∧
    (execute cfgTwoStep false).events =
      [{ type := EventType.workflow_start },
       { type := EventType.step_start, stepId := some "A" },
       { type := EventType.step_completed, stepId := some "A" },
       { type := EventType.step_start, stepId := some "B" },
       { type := EventType.step_completed, stepId := some "B" },
       { type := EventType.workflow_completed }] :=
  ⟨rfl,
    two_step_event_order cfgTwoStep
      { id := "A", execute := Except.ok 10 }
      { id := "B", dependsOn := ["A"], execute := Except.ok 20 }
      10 20 false rfl rfl (fun _ => rfl) (fun m h => nomatch h) rfl rfl (by decide)⟩

theorem foldUpd_cons (snaps : List Snapshot) (i : String) (is : List String) :
    foldUpd snaps (i :: is) = foldUpd (updateFirst snaps i Status.compensated) is := rfl

/-- One pass of the compensation loop in which every compensation function,
metric recording and event emission succeeds. -/
theorem compensationLoop_ok (cfg : Config α) (origErr : String) (L : List (Step α))
    (st : RState α)
    (hcomp : ∀ s ∈ L, s.compensate = some (Except.ok ()))
    (hm : MetricsOk cfg)
    (hev : ∀ s ∈ L, cfg.onEvent { type := EventType.step_compensated, stepId := some s.id, error := some origErr } = Except.ok ()) :
    compensationLoop cfg origErr L st =
      ({ st with
          snapshots := foldUpd st.snapshots (L.map Step.id),
          events := st.events ++ L.flatMap (fun s => obsEvents cfg [{ type := EventType.step_compensated, stepId := some s.id, error := some origErr }]),
          compCalls := st.compCalls ++ L.map Step.id,
          metricCalls := st.metricCalls ++ L.map (fun s => MetricCall.comp s.id) },
        none) := by
  induction L generalizing st with
  | nil => simp [compensationLoop, foldUpd]
  | cons s ss ih =>
    simp only [compensationLoop, hcomp s (by simp), Option.getD_some]
    rw [recordCompensationMetric_ok _ _ _ hm]
    dsimp only
    rw [emitEvent_pt_ok _ _ _ _ _ (hev s (by simp))]
    dsimp only [updateSnapshotStatus]
    rw [ih _ (fun q hq => hcomp q (List.mem_cons_of_mem _ hq))
        (fun q hq => hev q (List.mem_cons_of_mem _ hq))]
    simp [foldUpd_cons, obsEvents_append]

/-- At the moment of failure the compensatable list is exactly the
compensable prefix steps, reversed: the failed step's snapshot is not
`completed` and later steps have no snapshot at all. -/
theorem compensatableSteps_eq (cfg : Config α) (st : RState α)
    (pre post : List (Step α)) (f : Step α) (failSnap : Snapshot)
    (hsteps : cfg.steps = pre ++ f :: post)
    (hsnap : st.snapshots = pre.map completedSnap ++ [failSnap])
    (hfst : failSnap.status ≠ Status.completed)
    (hnd : ((pre ++ f :: post).map Step.id).Nodup) :
    compensatableSteps cfg st =
      (pre.filter (fun s => s.compensate.isSome)).reverse := by
  have hdisj : ∀ p ∈ pre, ∀ q, q ∈ f :: post → p.id ≠ q.id := by
    intro p hp q hq he
    rw [List.map_append] at hnd
    exact (List.nodup_append.mp hnd).2.2
      (List.mem_map_of_mem Step.id hp) (he ▸ List.mem_map_of_mem Step.id hq)
  unfold compensatableSteps
  rw [hsteps, List.filter_append, List.filter_append]
  have h1 : (pre.filter (fun s => s.compensate.isSome)).filter (fun s =>
      st.snapshots.any (fun sn => sn.id == s.id && sn.status == Status.completed)) =
      pre.filter (fun s => s.compensate.isSome) := by
    refine List.filter_eq_self.mpr (fun q hq => ?_)
    have hqpre : q ∈ pre := List.mem_of_mem_filter hq
    refine List.any_eq_true.mpr ⟨completedSnap q, ?_, by simp [completedSnap]⟩
    rw [hsnap]
    exact List.mem_append.mpr (Or.inl (List.mem_map_of_mem completedSnap hqpre))
  have h2 : ((f :: post).filter (fun s => s.compensate.isSome)).filter (fun s =>
      st.snapshots.any (fun sn => sn.id == s.id && sn.status == Status.completed)) =
      [] := by
    refine List.filter_eq_nil_iff.mpr (fun q hq => ?_)
    have hqm : q ∈ f :: post := List.mem_of_mem_filter hq
    intro hany
    rw [hsnap] at hany
    obtain ⟨sn, hsn, hp⟩ := List.any_eq_true.mp hany
    rcases List.mem_append.mp hsn with h | h
    · obtain ⟨p, hp2, hpe⟩ := List.mem_map.mp h
      have hne : p.id ≠ q.id := hdisj p hp2 q hqm
      subst hpe
      simp [completedSnap, hne] at hp
    · simp only [List.mem_singleton] at h
      subst h
      simp [hfst] at hp
  rw [h1, h2, List.append_nil]

/-- The catch block of `execute` when the completion metric and the
`workflow:failed` emission do not throw. -/
theorem executeCatch_benign (cfg : Config α) (st : RState α) (e : String)
    (flag ranV : Bool) (hm : MetricsOk cfg)
    (hwf : cfg.onEvent { type := EventType.workflow_failed, stepId := none, error := some e } = Except.ok ()) :
    executeCatch cfg st e flag ranV =
      mkOut (Except.error e) (some { error := e, steps := st.snapshots })
        ({ st with
            events := st.events ++ obsEvents cfg [{ type := EventType.workflow_failed, stepId := none, error := some e }],
            metricCalls := st.metricCalls ++ [MetricCall.completion false] })
        flag ranV := by
  unfold executeCatch
  dsimp only
  rw [recordMetricsCompletion_ok _ _ _ hm]
  dsimp only
  rw [emitEvent_pt_ok _ _ _ _ _ hwf]

/-- On a step list that validates, `execute` for either flag value runs the
body with the flag set afterwards. -/
theorem execute_eq_body (cfg : Config α) (b : Bool)
    (hv : validateSteps cfg.steps = Except.ok ()) :
    execute cfg b = executeBody cfg true (!b) := by
  cases b <;> simp [execute, hv]

/-- C1: in every execution in which the execute function of some step fails
(observers and the metrics sink themselves not throwing, and every declared
compensation succeeding), the engine invokes the compensation functions of
exactly the steps that declare one and whose snapshot is `completed`, in
reverse completion order; each of those snapshots becomes `compensated`;
the failed step is never compensated; and the original error is re-raised. -/
theorem compensation_unwind (cfg : Config α) (pre post : List (Step α))
    (f : Step α) (v : Step α → α) (e : String) (b : Bool)
    (hsteps : cfg.steps = pre ++ f :: post)
    (hwo : wellOrdered [] cfg.steps = true)
    (hex : ∀ s ∈ pre, s.execute = Except.ok (v s))
    (hf : f.execute = Except.error e)
    (hcomp : ∀ s ∈ pre, ∀ c, s.compensate = some c → c = Except.ok ())
    (hobs : ObserversOk cfg) (hm : MetricsOk cfg) :
    (execute cfg b).retval = Except.error e ∧
    (execute cfg b).compCalls =
      ((pre.filter (fun s => s.compensate.isSome)).map Step.id).reverse ∧
    f.id ∉ (execute cfg b).compCalls ∧
    (execute cfg b).snapshots =
      pre.map (fun s => if s.compensate.isSome then ({ id := s.id, status := Status.compensated } : Snapshot) else completedSnap s) ++
        [{ id := f.id, status := Status.failed, error := some e }] := by
  have hndall : ((pre ++ f :: post).map Step.id).Nodup := by
    have h0 := (wellOrdered_nodup cfg.steps [] hwo).1
    rwa [hsteps] at h0
  have hndpre : (pre.map Step.id).Nodup := by
    rw [List.map_append] at hndall
    exact (List.nodup_append.mp hndall).1
  have hfni : f.id ∉ pre.map Step.id := by
    rw [List.map_append] at hndall
    intro hmem
    exact (List.nodup_append.mp hndall).2.2 hmem (by simp)
  have hwo0 : wellOrdered [] (pre ++ f :: post) = true := by rw [← hsteps]; exact hwo
  have hdeps_f : ∀ d ∈ f.dependsOn, d ∈ pre.map Step.id := by
    intro d hd
    simpa using wellOrdered_mid pre f post [] hwo0 d hd
  have hwopre : wellOrdered [] pre = true := wellOrdered_append_left pre (f :: post) [] hwo0
  have hdcpre : depsClosed ([] : List String) pre :=
    depsClosed_of_wellOrdered pre [] [] (by simp) hwopre
  have hval : validateSteps cfg.steps = Except.ok () := validateSteps_of_wellOrdered _ [] hwo
  have hcomp2 : ∀ s ∈ (pre.filter (fun s => s.compensate.isSome)).reverse,
      s.compensate = some (Except.ok ()) := by
    intro s hs
    rw [List.mem_reverse] at hs
    have hsp : s ∈ pre := List.mem_of_mem_filter hs
    have hsome : s.compensate.isSome := by simpa using (List.mem_filter.mp hs).2
    obtain ⟨c, hc⟩ := Option.isSome_iff_exists.mp hsome
    rw [hc, hcomp s hsp c hc]
  rw [execute_eq_body cfg b hval]
  unfold executeBody
  dsimp only
  rw [emitEvent_pt_ok _ _ _ _ _ (hobs _)]
  dsimp only
  rw [hsteps, runSteps_append]
  rw [runSteps_ok cfg pre v _ [] hex (by simp [completedIds]) hdcpre (by simp) hndpre
    (fun s _ => hobs _) (fun s _ => hobs _) hm]
  dsimp only
  simp only [runSteps]
  unfold executeStep
  rw [ensureDeps_none]
  dsimp only
  rw [emitEvent_pt_ok _ _ _ _ _ (hobs _)]
  dsimp only
  simp only [hf]
  unfold stepCatch
  dsimp only
  rw [modifyLast_append]
  rw [recordStepMetric_ok _ _ _ _ hm]
  dsimp only
  rw [emitEvent_pt_ok _ _ _ _ _ (hobs _)]
  dsimp only
  unfold executeCompensation
  rw [compensatableSteps_eq cfg _ pre post f _ hsteps]
  rw [compensationLoop_ok cfg e ((pre.filter (fun s => s.compensate.isSome)).reverse) _
    hcomp2 hm (fun s _ => hobs _)]
  dsimp only
  simp only [Option.getD_none]
  rw [executeCatch_benign _ _ _ _ _ hm (hobs _)]
  dsimp only [mkOut]
  refine ⟨rfl, by simp [List.map_reverse], ?_, ?_⟩
  · intro hmem
    simp only [List.nil_append, List.mem_map, List.mem_reverse] at hmem
    obtain ⟨q, hq, hqe⟩ := hmem
    exact hfni (hqe ▸ List.mem_map_of_mem Step.id (List.mem_of_mem_filter hq))
  · have hmm : List.map completedSnap pre = List.map (markSnap []) pre :=
      List.map_congr_left (fun q _ => (markSnap_nil q).symm)
    rw [List.nil_append, hmm, foldUpd_marked
      (List.map Step.id (List.filter (fun s => s.compensate.isSome) pre).reverse) pre
      [{ id := f.id, status := Status.failed, error := some e }] [] hndpre]
    · congr 1
      refine List.map_congr_left (fun s hs => ?_)
      by_cases hcs : s.compensate.isSome
      · have hmem : s.id ∈ [] ++
            List.map Step.id (List.filter (fun q => q.compensate.isSome) pre).reverse := by
          simp only [List.nil_append, List.mem_map, List.mem_reverse]
          exact ⟨s, List.mem_filter.mpr ⟨hs, by simpa using hcs⟩, rfl⟩
        simp only [markSnap, hcs, if_pos, hmem]
      · have hnmem : s.id ∉ [] ++
            List.map Step.id (List.filter (fun q => q.compensate.isSome) pre).reverse := by
          intro hmem2
          simp only [List.nil_append, List.mem_map, List.mem_reverse] at hmem2
          obtain ⟨q, hq, hqe⟩ := hmem2
          have hqs : q = s :=
            List.inj_on_of_nodup_map hndpre (List.mem_of_mem_filter hq) hs hqe
          rw [hqs] at hq
          exact hcs (by simpa using (List.mem_filter.mp hq).2)
        simp only [markSnap, hcs]
        simp [completedSnap]
        intro x hx hxs hxe
        have hxeq : x = s := List.inj_on_of_nodup_map hndpre hx hs hxe
        rw [hxeq] at hxs
        exact hcs hxs
    · intro i hi
      simp only [List.mem_map, List.mem_reverse] at hi
      obtain ⟨q, hq, hqe⟩ := hi
      simp only [List.map_cons, List.map_nil, List.mem_singleton]
      intro hif
      apply hfni
      rw [← hif, ← hqe]
      exact List.mem_map_of_mem Step.id (List.mem_of_mem_filter hq)
  · exact rfl
  · simp
  · exact hndall
  · intro d hd
    obtain ⟨q, hq, hqe⟩ := List.mem_map.mp (hdeps_f d hd)
    simp only [completedIds]
    refine List.mem_map.mpr
      ⟨completedSnap q, List.mem_filter.mpr ⟨?_, by simp [completedSnap]⟩, hqe⟩
    simp only [List.nil_append]
    exact List.mem_map_of_mem completedSnap hq

/-- The spec's two-step compensation example: A compensable and successful,
B compensable but failing. -/
def stepAW : Step Nat :=
  { id := "A", execute := Except.ok 1, compensate := some (Except.ok ()) }

/-- The failing step of the two-step compensation example. -/
def stepBW : Step Nat :=
  { id := "B", dependsOn := ["A"], execute := Except.error "B failed",
    compensate := some (Except.ok ()) }

/-- Workflow `[A (compensable), B (fails, compensable)]`. -/
def cfgUnwind : Config Nat := { steps := [stepAW, stepBW] }

/-- Witness of C1 at the spec's `[A (compensable), B (fails, compensable)]`
example. -/
theorem compensation_unwind_witness :
    wellOrdered [] cfgUnwind.steps = true ∧
    ((execute cfgUnwind false).retval = Except.error "B failed" ∧
     (execute cfgUnwind false).compCalls =
       (([stepAW].filter (fun s => s.compensate.isSome)).map Step.id).reverse ∧
     stepBW.id ∉ (execute cfgUnwind false).compCalls ∧
     (execute cfgUnwind false).snapshots =
       [stepAW].map (fun s => if s.compensate.isSome then ({ id := s.id, status := Status.compensated } : Snapshot) else completedSnap s) ++
         [{ id := stepBW.id, status := Status.failed, error := some "B failed" }]) :=
  ⟨by decide,
    compensation_unwind cfgUnwind [stepAW] [] stepBW (fun _ => 1) "B failed" false
      rfl (by decide) (by decide) rfl
      (by
        intro s hs c hc
        rw [List.mem_singleton] at hs
        subst hs
        exact (Option.some.inj hc).symm)
      (fun _ => rfl) (fun m h => nomatch h)⟩

/-- Status of a step's snapshot in the marked form produced by the unwind. -/
theorem statusOf_marked (pre : List (Step α)) (tail : List Snapshot) (A : List String)
    (s : Step α) (hs : s ∈ pre) (hnd : (pre.map Step.id).Nodup) :
    statusOf (pre.map (markSnap A) ++ tail) s.id =
      some (if s.id ∈ A then Status.compensated else Status.completed) := by
  induction pre with
  | nil => cases hs
  | cons p ps ih =>
    simp only [List.map_cons, List.nodup_cons] at hnd
    rcases List.mem_cons.mp hs with h | h
    · subst h
      simp [statusOf, markSnap]
    · have hne : p.id ≠ s.id := fun he => hnd.1 (he ▸ List.mem_map_of_mem Step.id h)
      have hrec := ih h hnd.2
      simp only [statusOf, List.map_cons, List.cons_append, List.find?_cons] at hrec ⊢
      have hbeq : ((markSnap A p).id == s.id) = false := by
        simp [markSnap_id, hne]
      simp only [hbeq]
      exact hrec

/-- The compensation loop when the compensation function of `bad` throws
after those of `good` succeeded: the loop invokes `good`'s and `bad`'s
compensations only, emits `step:failed` for the failed attempt and reports
the compensation error as the new raised error. -/
theorem compensationLoop_fail (cfg : Config α) (origErr : String)
    (good : List (Step α)) (bad : Step α) (rest : List (Step α)) (ce : String)
    (st : RState α)
    (hcomp : ∀ s ∈ good, s.compensate = some (Except.ok ()))
    (hbad : bad.compensate = some (Except.error ce))
    (hm : MetricsOk cfg)
    (hev : ∀ s ∈ good, cfg.onEvent { type := EventType.step_compensated, stepId := some s.id, error := some origErr } = Except.ok ())
    (hbe : cfg.onEvent { type := EventType.step_failed, stepId := some bad.id, error := some ce } = Except.ok ()) :
    compensationLoop cfg origErr (good ++ bad :: rest) st =
      ({ st with
          snapshots := foldUpd st.snapshots (good.map Step.id),
          events := st.events ++ good.flatMap (fun s => obsEvents cfg [{ type := EventType.step_compensated, stepId := some s.id, error := some origErr }]) ++ obsEvents cfg [{ type := EventType.step_failed, stepId := some bad.id, error := some ce }],
          compCalls := st.compCalls ++ good.map Step.id ++ [bad.id],
          metricCalls := st.metricCalls ++ good.map (fun s => MetricCall.comp s.id) },
        some ce) := by
  induction good generalizing st with
  | nil =>
    simp only [List.nil_append, compensationLoop, hbad, Option.getD_some]
    rw [emitEvent_pt_ok _ _ _ _ _ hbe]
    dsimp only
    simp [foldUpd]
  | cons s ss ih =>
    simp only [List.cons_append, compensationLoop, hcomp s (by simp), Option.getD_some]
    rw [recordCompensationMetric_ok _ _ _ hm]
    dsimp only
    rw [emitEvent_pt_ok _ _ _ _ _ (hev s (by simp))]
    dsimp only [updateSnapshotStatus]
    simp only [List.append_eq]
    rw [ih _ (fun q hq => hcomp q (List.mem_cons_of_mem _ hq))
      (fun q hq => hev q (List.mem_cons_of_mem _ hq))]
    simp [foldUpd_cons, obsEvents_append]

/-- Rewriting the unwind's repeated snapshot updates into marked form. -/
theorem foldUpd_completed (pre : List (Step α)) (sn : Snapshot) (ids : List String)
    (hnd : (pre.map Step.id).Nodup) (hids : ∀ i ∈ ids, i ≠ sn.id) :
    foldUpd (List.map completedSnap pre ++ [sn]) ids = pre.map (markSnap ids) ++ [sn] := by
  have hmm : List.map completedSnap pre = List.map (markSnap []) pre :=
    List.map_congr_left (fun q _ => (markSnap_nil q).symm)
  rw [hmm, foldUpd_marked ids pre [sn] [] hnd (fun i hi => by simpa using hids i hi)]
  simp

/-- Full run in which step `f` fails and the unwind itself fails at `bad`
after `good` compensated: the raised error is the compensation error, the
invoked compensations are exactly `good` plus the failed attempt at `bad`,
the snapshots are `good`-marked, and (when observers are registered) a
`step:failed` event for the attempt is delivered. -/
theorem execute_comp_fail (cfg : Config α) (pre post : List (Step α))
    (f : Step α) (v : Step α → α) (e ce : String) (b : Bool)
    (good : List (Step α)) (bad : Step α) (rest : List (Step α))
    (hsteps : cfg.steps = pre ++ f :: post)
    (hwo : wellOrdered [] cfg.steps = true)
    (hex : ∀ s ∈ pre, s.execute = Except.ok (v s))
    (hf : f.execute = Except.error e)
    (hsplit : (pre.filter (fun s => s.compensate.isSome)).reverse = good ++ bad :: rest)
    (hcomp : ∀ s ∈ good, s.compensate = some (Except.ok ()))
    (hbad : bad.compensate = some (Except.error ce))
    (hobs : ObserversOk cfg) (hm : MetricsOk cfg) :
    (execute cfg b).retval = Except.error ce ∧
    (execute cfg b).compCalls = good.map Step.id ++ [bad.id] ∧
    (execute cfg b).snapshots =
      pre.map (markSnap (good.map Step.id)) ++
        [{ id := f.id, status := Status.failed, error := some e }] ∧
    (cfg.hasObservers = true →
      ({ type := EventType.step_failed, stepId := some bad.id, error := some ce } : WEvent) ∈ (execute cfg b).events) := by
  have hndall : ((pre ++ f :: post).map Step.id).Nodup := by
    have h0 := (wellOrdered_nodup cfg.steps [] hwo).1
    rwa [hsteps] at h0
  have hndpre : (pre.map Step.id).Nodup := by
    rw [List.map_append] at hndall
    exact (List.nodup_append.mp hndall).1
  have hfni : f.id ∉ pre.map Step.id := by
    rw [List.map_append] at hndall
    intro hmem
    exact (List.nodup_append.mp hndall).2.2 hmem (by simp)
  have hwo0 : wellOrdered [] (pre ++ f :: post) = true := by rw [← hsteps]; exact hwo
  have hdeps_f : ∀ d ∈ f.dependsOn, d ∈ pre.map Step.id := by
    intro d hd
    simpa using wellOrdered_mid pre f post [] hwo0 d hd
  have hwopre : wellOrdered [] pre = true := wellOrdered_append_left pre (f :: post) [] hwo0
  have hdcpre : depsClosed ([] : List String) pre :=
    depsClosed_of_wellOrdered pre [] [] (by simp) hwopre
  have hval : validateSteps cfg.steps = Except.ok () := validateSteps_of_wellOrdered _ [] hwo
  have hgoodpre : ∀ s ∈ good, s ∈ pre := by
    intro s hs
    have : s ∈ (pre.filter (fun s => s.compensate.isSome)).reverse := by
      rw [hsplit]
      exact List.mem_append.mpr (Or.inl hs)
    rw [List.mem_reverse] at this
    exact List.mem_of_mem_filter this
  have hgoodids : ∀ i ∈ good.map Step.id, i ≠ f.id := by
    intro i hi hif
    obtain ⟨q, hq, hqe⟩ := List.mem_map.mp hi
    exact hfni (hif ▸ hqe ▸ List.mem_map_of_mem Step.id (hgoodpre q hq))
  rw [execute_eq_body cfg b hval]
  unfold executeBody
  dsimp only
  rw [emitEvent_pt_ok _ _ _ _ _ (hobs _)]
  dsimp only
  rw [hsteps, runSteps_append]
  rw [runSteps_ok cfg pre v _ [] hex (by simp [completedIds]) hdcpre (by simp) hndpre
    (fun s _ => hobs _) (fun s _ => hobs _) hm]
  dsimp only
  simp only [runSteps]
  unfold executeStep
  rw [ensureDeps_none]
  dsimp only
  rw [emitEvent_pt_ok _ _ _ _ _ (hobs _)]
  dsimp only
  simp only [hf]
  unfold stepCatch
  dsimp only
  rw [modifyLast_append]
  rw [recordStepMetric_ok _ _ _ _ hm]
  dsimp only
  rw [emitEvent_pt_ok _ _ _ _ _ (hobs _)]
  dsimp only
  unfold executeCompensation
  rw [compensatableSteps_eq cfg _ pre post f _ hsteps]
  rw [hsplit]
  rw [compensationLoop_fail cfg e good bad rest ce _ hcomp hbad hm
    (fun s _ => hobs _) (hobs _)]
  dsimp only
  simp only [Option.getD_some]
  rw [executeCatch_benign _ _ _ _ _ hm (hobs _)]
  dsimp only [mkOut]
  refine ⟨rfl, by simp, ?_, ?_⟩
  · rw [List.nil_append, foldUpd_completed pre _ (good.map Step.id) hndpre]
    intro i hi
    exact hgoodids i hi
  · intro hon
    simp [obsEvents, hon]
  · exact rfl
  · simp
  · exact hndall
  · intro d hd
    obtain ⟨q, hq, hqe⟩ := List.mem_map.mp (hdeps_f d hd)
    simp only [completedIds]
    refine List.mem_map.mpr
      ⟨completedSnap q, List.mem_filter.mpr ⟨?_, by simp [completedSnap]⟩, hqe⟩
    simp only [List.nil_append]
    exact List.mem_map_of_mem completedSnap hq

/-- C2: when a compensation function itself throws (observers registered
and benign, metrics benign), the engine emits a `step:failed` event for that
compensation attempt, stops processing further compensations, raises the
compensation error instead of the original step failure, and every completed
step whose compensation was not yet attempted keeps snapshot status
`completed`. -/
theorem compensation_error_stops_unwind (cfg : Config α) (pre post : List (Step α))
    (f : Step α) (v : Step α → α) (e ce : String) (b : Bool)
    (good : List (Step α)) (bad : Step α) (rest : List (Step α))
    (hsteps : cfg.steps = pre ++ f :: post)
    (hwo : wellOrdered [] cfg.steps = true)
    (hex : ∀ s ∈ pre, s.execute = Except.ok (v s))
    (hf : f.execute = Except.error e)
    (hsplit : (pre.filter (fun s => s.compensate.isSome)).reverse = good ++ bad :: rest)
    (hcomp : ∀ s ∈ good, s.compensate = some (Except.ok ()))
    (hbad : bad.compensate = some (Except.error ce))
    (hon : cfg.hasObservers = true)
    (hobs : ObserversOk cfg) (hm : MetricsOk cfg) :
    (execute cfg b).retval = Except.error ce ∧
    (execute cfg b).compCalls = good.map Step.id ++ [bad.id] ∧
    ({ type := EventType.step_failed, stepId := some bad.id, error := some ce } : WEvent) ∈ (execute cfg b).events ∧
    (∀ s ∈ rest, statusOf (execute cfg b).snapshots s.id = some Status.completed) := by
  obtain ⟨h1, h2, h3, h4⟩ := execute_comp_fail cfg pre post f v e ce b good bad rest
    hsteps hwo hex hf hsplit hcomp hbad hobs hm
  have hndpre : (pre.map Step.id).Nodup := by
    have h0 := (wellOrdered_nodup cfg.steps [] hwo).1
    rw [hsteps, List.map_append] at h0
    exact (List.nodup_append.mp h0).1
  have hndrev : (((pre.filter (fun q => q.compensate.isSome)).reverse).map Step.id).Nodup := by
    rw [List.map_reverse]
    refine List.nodup_reverse.mpr ?_
    exact ((List.filter_sublist pre).map Step.id).nodup hndpre
  have hgr : ((good ++ bad :: rest).map Step.id).Nodup := by
    rw [← hsplit]
    exact hndrev
  refine ⟨h1, h2, h4 hon, ?_⟩
  intro s hs
  have hrevmem : s ∈ (pre.filter (fun q => q.compensate.isSome)).reverse := by
    rw [hsplit]
    exact List.mem_append.mpr (Or.inr (List.mem_cons_of_mem _ hs))
  have hspre : s ∈ pre := List.mem_of_mem_filter (List.mem_reverse.mp hrevmem)
  have hnin : s.id ∉ good.map Step.id := by
    intro hmem
    rw [List.map_append] at hgr
    have hsid : s.id ∈ (bad :: rest).map Step.id := by
      simp only [List.map_cons]
      exact List.mem_cons_of_mem _ (List.mem_map_of_mem Step.id hs)
    exact (List.nodup_append.mp hgr).2.2 hmem hsid
  rw [h3, statusOf_marked pre _ (good.map Step.id) s hspre hndpre]
  simp [hnin]

/-- Four steps: three compensable steps then a failing step, with B's
compensation itself failing. -/
def stA2 : Step Nat :=
  { id := "A", execute := Except.ok 1, compensate := some (Except.ok ()) }

/-- Second step of the four-step scenario; its compensation throws. -/
def stB2 : Step Nat :=
  { id := "B", dependsOn := ["A"], execute := Except.ok 2,
    compensate := some (Except.error "B comp failed") }

/-- Third step of the four-step scenario. -/
def stC2 : Step Nat :=
  { id := "C", dependsOn := ["B"], execute := Except.ok 3,
    compensate := some (Except.ok ()) }

/-- The failing fourth step of the four-step scenario. -/
def stD2 : Step Nat :=
  { id := "D", dependsOn := ["C"], execute := Except.error "D failed" }

/-- The four-step workflow with an observer registered. -/
def cfgCompFail : Config Nat :=
  { steps := [stA2, stB2, stC2, stD2], hasObservers := true }

/-- Witness of C2: C compensates, B's compensation throws, A keeps status
`completed`. -/
theorem compensation_error_stops_unwind_witness :
    wellOrdered [] cfgCompFail.steps = true ∧
    ((execute cfgCompFail false).retval = Except.error "B comp failed" ∧
     (execute cfgCompFail false).compCalls = [stC2].map Step.id ++ [stB2.id] ∧
     ({ type := EventType.step_failed, stepId := some stB2.id, error := some "B comp failed" } : WEvent) ∈ (execute cfgCompFail false).events ∧
     (∀ s ∈ [stA2], statusOf (execute cfgCompFail false).snapshots s.id = some Status.completed)) :=
  ⟨by decide,
    compensation_error_stops_unwind cfgCompFail [stA2, stB2, stC2] [] stD2
      (fun s => if s.id = "A" then 1 else if s.id = "B" then 2 else 3)
      "D failed" "B comp failed" false [stC2] stB2 [stA2]
      rfl (by decide) (by decide) rfl (by decide) (by decide) rfl rfl
      (fun _ => rfl) (fun m h => nomatch h)⟩

/-- First step of the spec's three-step compensation-failure scenario; its
compensation throws. -/
def stA3 : Step Nat :=
  { id := "A", execute := Except.ok 1,
    compensate := some (Except.error "A compensation failed") }

/-- Second step of the three-step scenario; its compensation succeeds. -/
def stB3 : Step Nat :=
  { id := "B", dependsOn := ["A"], execute := Except.ok 2,
    compensate := some (Except.ok ()) }

/-- The failing third step of the three-step scenario. -/
def stC3 : Step Nat :=
  { id := "C", dependsOn := ["B"], execute := Except.error "C failed" }

/-- The spec's three-step scenario `[A, B, C]` with C failing. -/
def cfgThreeStep : Config Nat := { steps := [stA3, stB3, stC3] }

/-- C3 counterexample: in the three-step scenario where B's compensation
succeeds and A's compensation then throws, A's final snapshot status is
`completed`, NOT the `failed` state the claim describes; the raised error is
A's compensation error. -/
theorem comp_fail_snapshot_counterexample :
    statusOf (execute cfgThreeStep false).snapshots "A" = some Status.completed ∧
    statusOf (execute cfgThreeStep false).snapshots "A" ≠ some Status.failed ∧
    statusOf (execute cfgThreeStep false).snapshots "B" = some Status.compensated ∧
    (execute cfgThreeStep false).retval = Except.error "A compensation failed" :=
  ⟨rfl, by decide, rfl, rfl⟩

/-- C3 amended: for the three-step scenario (A and B complete, C fails, B's
compensation succeeds, A's compensation throws; observers and metrics
benign), B's snapshot has status `compensated`, A's snapshot KEEPS status
`completed` — the failed compensation attempt is reported only through the
`step:failed` event, not on the snapshot — and the error raised to the
caller is A's compensation error, not the original error from C. -/
theorem comp_fail_snapshot_amended (cfg : Config α) (a bstep c : Step α)
    (va vb : α) (e ce : String) (b : Bool)
    (hsteps : cfg.steps = [a, bstep, c])
    (hwo : wellOrdered [] cfg.steps = true)
    (hea : a.execute = Except.ok va) (heb : bstep.execute = Except.ok vb)
    (hec : c.execute = Except.error e)
    (hca : a.compensate = some (Except.error ce))
    (hcb : bstep.compensate = some (Except.ok ()))
    (hne : ce ≠ e)
    (hobs : ObserversOk cfg) (hm : MetricsOk cfg) :
    statusOf (execute cfg b).snapshots bstep.id = some Status.compensated ∧
    statusOf (execute cfg b).snapshots a.id = some Status.completed ∧
    (execute cfg b).retval = Except.error ce ∧
    (execute cfg b).retval ≠ Except.error e := by
  have hab : a.id ≠ bstep.id := by
    intro he
    have h0 := (wellOrdered_nodup cfg.steps [] hwo).1
    rw [hsteps] at h0
    simp [he] at h0
  have hndpre : ([a, bstep].map Step.id).Nodup := by simp [hab]
  have hex : ∀ s ∈ [a, bstep],
      s.execute = Except.ok ((fun s => if s.id = a.id then va else vb) s) := by
    intro s hs
    rcases List.mem_cons.mp hs with h | h
    · subst h; simp [hea]
    · simp only [List.mem_singleton] at h; subst h; simp [heb, Ne.symm hab]
  have hsplit : ([a, bstep].filter (fun s => s.compensate.isSome)).reverse =
      [bstep] ++ a :: [] := by
    simp [List.filter, hca, hcb]
  obtain ⟨h1, h2, h3, _⟩ := execute_comp_fail cfg [a, bstep] [] c
    (fun s => if s.id = a.id then va else vb) e ce b [bstep] a []
    (by simpa using hsteps) hwo hex hec hsplit
    (by intro s hs; simp only [List.mem_singleton] at hs; subst hs; exact hcb)
    hca hobs hm
  refine ⟨?_, ?_, h1, ?_⟩
  · rw [h3, statusOf_marked [a, bstep] _ ([bstep].map Step.id) bstep (by simp) hndpre]
    simp
  · rw [h3, statusOf_marked [a, bstep] _ ([bstep].map Step.id) a (by simp) hndpre]
    simp [hab]
  · rw [h1]
    intro hcon
    exact hne (Except.error.inj hcon)

/-- Witness of C3's amended theorem at the concrete three-step scenario. -/
theorem comp_fail_snapshot_amended_witness :
    wellOrdered [] cfgThreeStep.steps = true ∧
    (statusOf (execute cfgThreeStep false).snapshots stB3.id = some Status.compensated ∧
     statusOf (execute cfgThreeStep false).snapshots stA3.id = some Status.completed ∧
     (execute cfgThreeStep false).retval = Except.error "A compensation failed" ∧
     (execute cfgThreeStep false).retval ≠ Except.error "C failed") :=
  ⟨by decide,
    comp_fail_snapshot_amended cfgThreeStep stA3 stB3 stC3 1 2 "C failed"
      "A compensation failed" false rfl (by decide) rfl rfl rfl rfl rfl
      (by decide) (fun _ => rfl) (fun m h => nomatch h)⟩

/-- A single step that depends on itself. -/
def selfDepStep : Step Nat := { id := "A", dependsOn := ["A"], execute := Except.ok 0 }

/-- C5: contrary to the claim, validation ACCEPTS a step list in which a
`dependsOn` entry does not appear among strictly earlier step ids, when that
entry is the step's own id — the source adds the step's id to the seen set
before checking the step's dependencies, so a self-dependency validates. -/
theorem validation_accepts_self_dependency :
    validateSteps [selfDepStep] = Except.ok () := rfl

/-- The workflow consisting of the self-dependent step. -/
def cfgSelfDep : Config Nat := { steps := [selfDepStep] }

/-- C6: the self-dependent step list passes validation, yet executing it
reaches the "unreachable" runtime dependency-violation branch: the
dependency-violation error is raised, with no snapshot ever created. -/
theorem dependency_violation_reachable :
    validateSteps cfgSelfDep.steps = Except.ok () ∧
    (execute cfgSelfDep false).validationRan = true ∧
    (execute cfgSelfDep false).retval = Except.error (depViolationMsg "A" "A") ∧
    (execute cfgSelfDep false).builtFailure =
      some { error := depViolationMsg "A" "A", steps := [] } ∧
    (execute cfgSelfDep false).snapshots = [] :=
  ⟨rfl, rfl, rfl, rfl, rfl⟩

/-- A workflow whose two steps share an id. -/
def cfgDupIds : Config Nat :=
  { steps := [{ id := "A", execute := Except.ok 1 },
              { id := "A", execute := Except.ok 2 }] }

/-- C9 counterexample: an execution whose step list has a duplicate id
raises the validation error while building NEITHER result variant — no
success is returned and no failure variant is constructed. -/
theorem no_variant_on_validation_error :
    (execute cfgDupIds false).retval = Except.error (dupMsg "A") ∧
    (execute cfgDupIds false).builtFailure = none :=
  ⟨rfl, rfl⟩

theorem emitEvent_snd_none (cfg : Config α) (st : RState α) (t : EventType)
    (sid err : Option String)
    (h : cfg.hasObservers = true →
      cfg.onEvent { type := t, stepId := sid, error := err } = Except.ok ()) :
    (emitEvent cfg st t sid err).2 = none := by
  unfold emitEvent
  rcases hON : cfg.hasObservers with _ | _
  · simp [hON]
  · simp [hON, h hON]

theorem emitEvent_fst_snapshots (cfg : Config α) (st : RState α) (t : EventType)
    (sid err : Option String) :
    ((emitEvent cfg st t sid err).1).snapshots = st.snapshots := by
  unfold emitEvent
  rcases hON : cfg.hasObservers with _ | _
  · simp [hON]
  · simp only [hON, if_true]
    rcases he : cfg.onEvent { type := t, stepId := sid, error := err } with e | u <;>
      simp [he]

theorem recordMetricsCompletion_fst_snapshots (cfg : Config α) (st : RState α)
    (ok : Bool) :
    ((recordMetricsCompletion cfg st ok).1).snapshots = st.snapshots := by
  unfold recordMetricsCompletion
  rcases hmc : cfg.metrics with _ | m
  · simp [hmc]
  · simp only [hmc]
    rcases hr : m.recordWorkflowCompletion ok with e | u <;> simp [hr]

/-- Whatever happens inside the catch block of `execute`, it raises some
error, the failure variant it built carries the raising error and the
snapshot list at entry, and snapshots do not change. -/
theorem executeCatch_spec (cfg : Config α) (st : RState α) (e : String)
    (flag ranV : Bool) :
    ∃ e2, (executeCatch cfg st e flag ranV).retval = Except.error e2 ∧
      (executeCatch cfg st e flag ranV).builtFailure =
        some { error := e, steps := st.snapshots } ∧
      (executeCatch cfg st e flag ranV).snapshots = st.snapshots := by
  unfold executeCatch
  dsimp only
  rcases h1 : recordMetricsCompletion cfg st false with ⟨st1, r1⟩
  have hsn1 : st1.snapshots = st.snapshots := by
    have := recordMetricsCompletion_fst_snapshots cfg st false
    rwa [h1] at this
  cases r1 with
  | some e2 => exact ⟨e2, rfl, rfl, hsn1⟩
  | none =>
    dsimp only
    rcases h2 : emitEvent cfg st1 EventType.workflow_failed none (some e) with ⟨st2, r2⟩
    have hsn2 : st2.snapshots = st1.snapshots := by
      have := emitEvent_fst_snapshots cfg st1 EventType.workflow_failed none (some e)
      rwa [h2] at this
    cases r2 with
    | some e2 => exact ⟨e2, rfl, rfl, hsn2.trans hsn1⟩
    | none => exact ⟨e, rfl, rfl, hsn2.trans hsn1⟩

/-- C9 amended: every execution that passes step validation (or that runs
with the validated flag already set) and whose `workflow:start` emission
does not raise produces exactly one of the two result variants — a returned
success, or a failure variant built before the error is raised — and in
either variant the `steps` field is the final snapshot list. -/
theorem result_variant_invariant (cfg : Config α) (b : Bool)
    (hv : b = true ∨ validateSteps cfg.steps = Except.ok ())
    (hstart : cfg.hasObservers = true → cfg.onEvent { type := EventType.workflow_start, stepId := none, error := none } = Except.ok ()) :
    (∃ s, (execute cfg b).retval = Except.ok s ∧
      (execute cfg b).builtFailure = none ∧ s.steps = (execute cfg b).snapshots) ∨
    (∃ e fl, (execute cfg b).retval = Except.error e ∧
      (execute cfg b).builtFailure = some fl ∧
      fl.steps = (execute cfg b).snapshots) := by
  have hexec : execute cfg b = executeBody cfg true (!b) ∨
      ∃ e, (execute cfg b).retval = Except.error e ∧ False := by
    left
    rcases hv with h | h
    · subst h; simp [execute]
    · cases b
      · simp [execute, h]
      · simp [execute]
  rcases hexec with heq | ⟨_, _, hcon⟩
  · rw [heq]
    unfold executeBody
    dsimp only
    rcases h0 : emitEvent cfg ({} : RState α) EventType.workflow_start none none with ⟨st0, r0⟩
    have hr0 : r0 = none := by
      have h3 := emitEvent_snd_none cfg ({} : RState α)
        EventType.workflow_start none none hstart
      rw [h0] at h3
      simpa using h3
    subst hr0
    dsimp only
    rcases hr : runSteps cfg cfg.steps st0 with ⟨st1, r1⟩
    cases r1 with
    | some e =>
      dsimp only
      obtain ⟨e2, ha, hb, hc⟩ := executeCatch_spec cfg st1 e true (!b)
      exact Or.inr ⟨e2, { error := e, steps := st1.snapshots }, ha, hb, by rw [hc]⟩
    | none =>
      dsimp only
      rcases h1 : recordMetricsCompletion cfg st1 true with ⟨st2, r2⟩
      have hsn1 : st2.snapshots = st1.snapshots := by
        have h3 := recordMetricsCompletion_fst_snapshots cfg st1 true
        rwa [h1] at h3
      cases r2 with
      | some e =>
        dsimp only
        obtain ⟨e2, ha, hb, hc⟩ := executeCatch_spec cfg st2 e true (!b)
        exact Or.inr ⟨e2, { error := e, steps := st2.snapshots },
          ha, hb, by rw [hc, hsn1]⟩
      | none =>
        dsimp only
        rcases h2 : emitEvent cfg st2 EventType.workflow_completed none none with ⟨st3, r3⟩
        have hsn2 : st3.snapshots = st2.snapshots := by
          have h3 := emitEvent_fst_snapshots cfg st2 EventType.workflow_completed none none
          rwa [h2] at h3
        cases r3 with
        | some e =>
          dsimp only
          obtain ⟨e2, ha, hb, hc⟩ := executeCatch_spec cfg st3 e true (!b)
          exact Or.inr ⟨e2, { error := e, steps := st3.snapshots },
            ha, hb, by rw [hc, hsn2, hsn1]⟩
        | none =>
          exact Or.inl ⟨{ result := defaultResult cfg st1, steps := st1.snapshots },
            rfl, rfl, by dsimp only [mkOut]; rw [hsn2, hsn1]⟩
  · exact absurd hcon not_false

/-- Witness of C9's amended theorem at the three-step all-success example. -/
theorem result_variant_invariant_witness :
    (false = true ∨ validateSteps cfgAllOk.steps = Except.ok ()) ∧
    ((∃ s, (execute cfgAllOk false).retval = Except.ok s ∧
      (execute cfgAllOk false).builtFailure = none ∧
      s.steps = (execute cfgAllOk false).snapshots) ∨
    (∃ e fl, (execute cfgAllOk false).retval = Except.error e ∧
      (execute cfgAllOk false).builtFailure = some fl ∧
      fl.steps = (execute cfgAllOk false).snapshots)) :=
  ⟨Or.inr rfl,
    result_variant_invariant cfgAllOk false (Or.inr rfl) (fun h => nomatch h)⟩

theorem metricsOk_none (cfg : Config α) : MetricsOk { cfg with metrics := none } :=
  fun _ h => nomatch h

theorem emitEvent_nometrics (cfg : Config α) :
    ∀ (st : RState α) (t : EventType) (sid err : Option String),
      emitEvent { cfg with metrics := none } st t sid err = emitEvent cfg st t sid err :=
  fun _ _ _ _ => rfl

theorem recordStepMetric_nometrics (cfg : Config α) (hm : MetricsOk cfg) :
    ∀ (st : RState α) (sid : String) (ok : Bool),
      recordStepMetric { cfg with metrics := none } st sid ok =
        recordStepMetric cfg st sid ok := by
  intro st sid ok
  rw [recordStepMetric_ok _ _ _ _ hm, recordStepMetric_ok _ _ _ _ (metricsOk_none cfg)]

theorem recordCompensationMetric_nometrics (cfg : Config α) (hm : MetricsOk cfg) :
    ∀ (st : RState α) (sid : String),
      recordCompensationMetric { cfg with metrics := none } st sid =
        recordCompensationMetric cfg st sid := by
  intro st sid
  rw [recordCompensationMetric_ok _ _ _ hm,
    recordCompensationMetric_ok _ _ _ (metricsOk_none cfg)]

theorem recordMetricsCompletion_nometrics (cfg : Config α) (hm : MetricsOk cfg) :
    ∀ (st : RState α) (ok : Bool),
      recordMetricsCompletion { cfg with metrics := none } st ok =
        recordMetricsCompletion cfg st ok := by
  intro st ok
  rw [recordMetricsCompletion_ok _ _ _ hm,
    recordMetricsCompletion_ok _ _ _ (metricsOk_none cfg)]

theorem compensatableSteps_nometrics (cfg : Config α) :
    ∀ st : RState α,
      compensatableSteps { cfg with metrics := none } st = compensatableSteps cfg st :=
  fun _ => rfl

theorem compensationLoop_nometrics (cfg : Config α) (hm : MetricsOk cfg)
    (L : List (Step α)) :
    ∀ (e : String) (st : RState α),
      compensationLoop { cfg with metrics := none } e L st =
        compensationLoop cfg e L st := by
  induction L with
  | nil => intro e st; rfl
  | cons s ss ih =>
    intro e st
    simp only [compensationLoop, emitEvent_nometrics cfg,
      recordCompensationMetric_nometrics cfg hm, ih]

theorem executeStep_nometrics (cfg : Config α) (hm : MetricsOk cfg) :
    ∀ (s : Step α) (st : RState α),
      executeStep { cfg with metrics := none } s st = executeStep cfg s st := by
  intro s st
  unfold executeStep stepCatch executeCompensation
  simp only [emitEvent_nometrics cfg, recordStepMetric_nometrics cfg hm,
    compensatableSteps_nometrics cfg, compensationLoop_nometrics cfg hm]

theorem runSteps_nometrics (cfg : Config α) (hm : MetricsOk cfg) (L : List (Step α)) :
    ∀ st : RState α,
      runSteps { cfg with metrics := none } L st = runSteps cfg L st := by
  induction L with
  | nil => intro st; rfl
  | cons s ss ih =>
    intro st
    simp only [runSteps, executeStep_nometrics cfg hm, ih]

theorem executeCatch_nometrics (cfg : Config α) (hm : MetricsOk cfg)
    (st : RState α) (e : String) (flag ranV : Bool) :
    executeCatch { cfg with metrics := none } st e flag ranV =
      executeCatch cfg st e flag ranV := by
  unfold executeCatch
  simp only [emitEvent_nometrics cfg, recordMetricsCompletion_nometrics cfg hm]

theorem defaultResult_nometrics (cfg : Config α) :
    ∀ st : RState α,
      defaultResult { cfg with metrics := none } st = defaultResult cfg st :=
  fun _ => rfl

theorem executeBody_nometrics (cfg : Config α) (hm : MetricsOk cfg)
    (flag ranV : Bool) :
    executeBody { cfg with metrics := none } flag ranV = executeBody cfg flag ranV := by
  unfold executeBody
  simp only [emitEvent_nometrics cfg, runSteps_nometrics cfg hm,
    recordMetricsCompletion_nometrics cfg hm, executeCatch_nometrics cfg hm,
    defaultResult_nometrics cfg]

/-- The two-step workflow with a registered, non-throwing metrics sink. -/
def okMetrics : Metrics :=
  { recordStep := fun _ _ => Except.ok (),
    recordCompensation := fun _ => Except.ok (),
    recordWorkflowCompletion := fun _ => Except.ok () }

/-- A metrics sink whose `recordStep` throws. -/
def boomMetrics : Metrics :=
  { recordStep := fun _ _ => Except.error "metrics boom",
    recordCompensation := fun _ => Except.ok (),
    recordWorkflowCompletion := fun _ => Except.ok () }

/-- One successful step with the throwing metrics sink attached. -/
def cfgBoom : Config Nat :=
  { steps := [{ id := "A", execute := Except.ok 1 }], metrics := some boomMetrics }

/-- C7 counterexample: with a metrics sink whose `recordStep` throws, the
single-step workflow raises the sink's error instead of returning success
and the snapshot of the (successful!) step is overwritten to `failed`: the
metric call sits inside the try block, so a sink failure changes the
orchestration outcome. -/
theorem metrics_throw_changes_outcome :
    (execute cfgBoom false).retval = Except.error "metrics boom" ∧
    (execute { cfgBoom with metrics := none } false).retval =
      Except.ok { result := some 1, steps := [{ id := "A", status := Status.completed }] } ∧
    (execute cfgBoom false).retval ≠ (execute { cfgBoom with metrics := none } false).retval ∧
    (execute cfgBoom false).snapshots =
      [{ id := "A", status := Status.failed, error := some "metrics boom" }] :=
  ⟨rfl, rfl, by decide, rfl⟩

/-- C7 amended: a metrics sink none of whose calls throws does not affect
the orchestration outcome — execution with such a sink is observably
identical (returned result or raised error, snapshots, step results,
events, compensations) to execution with no sink; a throwing sink, in
contrast, does change the outcome. -/
theorem nonthrowing_metrics_sink_transparent (cfg : Config α) (b : Bool)
    (hm : MetricsOk cfg) :
    execute cfg b = execute { cfg with metrics := none } b := by
  unfold execute
  cases b with
  | true =>
    simp only [if_true]
    exact (executeBody_nometrics cfg hm true false).symm
  | false =>
    simp only [Bool.false_eq_true, if_false]
    have hsteps : ({ cfg with metrics := none } : Config α).steps = cfg.steps := rfl
    rw [hsteps]
    rcases hv : validateSteps cfg.steps with e | u
    · rfl
    · exact (executeBody_nometrics cfg hm true true).symm

/-- The single-step workflow with the non-throwing sink attached. -/
def cfgOkSink : Config Nat :=
  { steps := [{ id := "A", execute := Except.ok 1 }], metrics := some okMetrics }

/-- Witness of C7's amended theorem at a concrete workflow with a
non-throwing sink. -/
theorem nonthrowing_metrics_sink_transparent_witness :
    MetricsOk cfgOkSink ∧
    execute cfgOkSink false = execute { cfgOkSink with metrics := none } false :=
  ⟨fun m h => by cases h; exact ⟨fun _ _ => rfl, fun _ => rfl, fun _ => rfl⟩,
    nonthrowing_metrics_sink_transparent cfgOkSink false
      (fun m h => by cases h; exact ⟨fun _ _ => rfl, fun _ => rfl, fun _ => rfl⟩)⟩

theorem lookupResult_append_last (l : List (String × α)) (k : String) (v : α)
    (h : k ∉ l.map Prod.fst) : lookupResult (l ++ [(k, v)]) k = some v := by
  induction l with
  | nil => simp [lookupResult, List.find?]
  | cons p ps ih =>
    simp only [List.map_cons, List.mem_cons] at h
    push_neg at h
    have hbeq : (p.1 == k) = false := by simp [Ne.symm h.1]
    simp only [lookupResult, List.cons_append, List.find?_cons, hbeq] at ih ⊢
    exact ih h.2

theorem statusOf_last (l : List Snapshot) (sn : Snapshot)
    (h : sn.id ∉ l.map Snapshot.id) : statusOf (l ++ [sn]) sn.id = some sn.status := by
  induction l with
  | nil => simp [statusOf, List.find?]
  | cons p ps ih =>
    simp only [List.map_cons, List.mem_cons] at h
    push_neg at h
    have hbeq : (p.id == sn.id) = false := by simp [Ne.symm h.1]
    simp only [statusOf, List.cons_append, List.find?_cons, hbeq] at ih ⊢
    exact ih h.2

/-- C10: if the registered observers throw while handling the
`step:completed` event of step S (and on no other event; metrics benign),
then although S's execute function succeeded and its output is already
stored in `stepResults`, S's snapshot is overwritten from `completed` to
`failed` carrying the observer's error message, a failure metric is
recorded for S, compensation runs for the earlier completed steps with S
itself excluded, and the observer's error is raised to the caller as the
workflow failure. -/
theorem observer_throw_on_completed (cfg : Config α) (pre post : List (Step α))
    (sS : Step α) (v : Step α → α) (vS : α) (msg : String) (b : Bool)
    (hsteps : cfg.steps = pre ++ sS :: post)
    (hwo : wellOrdered [] cfg.steps = true)
    (hex : ∀ s ∈ pre, s.execute = Except.ok (v s))
    (hS : sS.execute = Except.ok vS)
    (hcomp : ∀ s ∈ pre, ∀ c, s.compensate = some c → c = Except.ok ())
    (hon : cfg.hasObservers = true)
    (hthrow : cfg.onEvent { type := EventType.step_completed, stepId := some sS.id, error := none } = Except.error msg)
    (hok : ∀ ev : WEvent, ev ≠ { type := EventType.step_completed, stepId := some sS.id, error := none } → cfg.onEvent ev = Except.ok ())
    (hm : MetricsOk cfg) :
    (execute cfg b).retval = Except.error msg ∧
    lookupResult (execute cfg b).stepResults sS.id = some vS ∧
    statusOf (execute cfg b).snapshots sS.id = some Status.failed ∧
    MetricCall.step sS.id false ∈ (execute cfg b).metricCalls ∧
    (execute cfg b).compCalls =
      ((pre.filter (fun s => s.compensate.isSome)).map Step.id).reverse ∧
    sS.id ∉ (execute cfg b).compCalls := by
  have hndall : ((pre ++ sS :: post).map Step.id).Nodup := by
    have h0 := (wellOrdered_nodup cfg.steps [] hwo).1
    rwa [hsteps] at h0
  have hndpre : (pre.map Step.id).Nodup := by
    rw [List.map_append] at hndall
    exact (List.nodup_append.mp hndall).1
  have hfni : sS.id ∉ pre.map Step.id := by
    rw [List.map_append] at hndall
    intro hmem
    exact (List.nodup_append.mp hndall).2.2 hmem (by simp)
  have hprene : ∀ s ∈ pre, s.id ≠ sS.id := by
    intro s hs he
    exact hfni (he ▸ List.mem_map_of_mem Step.id hs)
  have hwo0 : wellOrdered [] (pre ++ sS :: post) = true := by rw [← hsteps]; exact hwo
  have hdeps_f : ∀ d ∈ sS.dependsOn, d ∈ pre.map Step.id := by
    intro d hd
    simpa using wellOrdered_mid pre sS post [] hwo0 d hd
  have hwopre : wellOrdered [] pre = true := wellOrdered_append_left pre (sS :: post) [] hwo0
  have hdcpre : depsClosed ([] : List String) pre :=
    depsClosed_of_wellOrdered pre [] [] (by simp) hwopre
  have hval : validateSteps cfg.steps = Except.ok () := validateSteps_of_wellOrdered _ [] hwo
  have hcomp2 : ∀ s ∈ (pre.filter (fun s => s.compensate.isSome)).reverse,
      s.compensate = some (Except.ok ()) := by
    intro s hs
    rw [List.mem_reverse] at hs
    have hsp : s ∈ pre := List.mem_of_mem_filter hs
    have hsome : s.compensate.isSome := by simpa using (List.mem_filter.mp hs).2
    obtain ⟨c, hc⟩ := Option.isSome_iff_exists.mp hsome
    rw [hc, hcomp s hsp c hc]
  rw [execute_eq_body cfg b hval]
  unfold executeBody
  dsimp only
  rw [emitEvent_pt_ok _ _ _ _ _ (hok _ (by simp))]
  dsimp only
  rw [hsteps, runSteps_append]
  rw [runSteps_ok cfg pre v _ [] hex (by simp [completedIds]) hdcpre (by simp) hndpre
    (fun s _ => hok _ (by simp)) (fun s hs => hok _ (by simp [hprene s hs])) hm]
  dsimp only
  simp only [runSteps]
  unfold executeStep
  rw [ensureDeps_none]
  dsimp only
  rw [emitEvent_pt_ok _ _ _ _ _ (hok _ (by simp))]
  dsimp only
  simp only [hS]
  rw [modifyLast_append, setResult_fresh]
  rw [recordStepMetric_ok _ _ _ _ hm]
  dsimp only
  rw [emitEvent_pt_err _ _ _ _ _ _ hon hthrow]
  dsimp only
  unfold stepCatch
  dsimp only
  rw [modifyLast_append]
  rw [recordStepMetric_ok _ _ _ _ hm]
  dsimp only
  rw [emitEvent_pt_ok _ _ _ _ _ (hok _ (by simp))]
  dsimp only
  unfold executeCompensation
  rw [compensatableSteps_eq cfg _ pre post sS _ hsteps]
  rw [compensationLoop_ok cfg msg ((pre.filter (fun s => s.compensate.isSome)).reverse) _
    hcomp2 hm (fun s _ => hok _ (by simp))]
  dsimp only
  simp only [Option.getD_none]
  rw [executeCatch_benign _ _ _ _ _ hm (hok _ (by simp))]
  dsimp only [mkOut]
  refine ⟨rfl, ?_, ?_, by simp, by simp [List.map_reverse], ?_⟩
  · rw [List.nil_append, lookupResult_append_last]
    simp only [List.map_map]
    intro hmem
    apply hfni
    obtain ⟨q, hq, hqe⟩ := List.mem_map.mp hmem
    exact hqe ▸ List.mem_map_of_mem Step.id hq
  · rw [List.nil_append, foldUpd_completed pre _ _ hndpre]
    · rw [statusOf_last]
      simp only [List.map_map]
      intro hmem
      apply hfni
      obtain ⟨q, hq, hqe⟩ := List.mem_map.mp hmem
      simp only [Function.comp, markSnap_id] at hqe
      exact hqe ▸ List.mem_map_of_mem Step.id hq
    · intro i hi hif
      obtain ⟨q, hq, hqe⟩ := List.mem_map.mp hi
      rw [List.mem_reverse] at hq
      apply hfni
      have hif2 : i = sS.id := hif
      rw [← hif2, ← hqe]
      exact List.mem_map_of_mem Step.id (List.mem_of_mem_filter hq)
  · intro hmem
    simp only [List.nil_append, List.mem_map, List.mem_reverse] at hmem
    obtain ⟨q, hq, hqe⟩ := hmem
    exact hfni (hqe ▸ List.mem_map_of_mem Step.id (List.mem_of_mem_filter hq))
  · exact rfl
  · simp
  · exact hndall
  · intro hmem
    simp only [List.nil_append, List.map_map] at hmem
    obtain ⟨q, hq, hqe⟩ := List.mem_map.mp hmem
    have hqid : q.id = sS.id := hqe
    exact hfni (hqid ▸ List.mem_map_of_mem Step.id hq)
  · intro d hd
    obtain ⟨q, hq, hqe⟩ := List.mem_map.mp (hdeps_f d hd)
    simp only [completedIds]
    refine List.mem_map.mpr
      ⟨completedSnap q, List.mem_filter.mpr ⟨?_, by simp [completedSnap]⟩, hqe⟩
    simp only [List.nil_append]
    exact List.mem_map_of_mem completedSnap hq

/-- First step of the observer-throw scenario, compensable and successful. -/
def stA10 : Step Nat :=
  { id := "A", execute := Except.ok 1, compensate := some (Except.ok ()) }

/-- Second step of the observer-throw scenario; it succeeds but the
observer throws on its `step:completed` event. -/
def stB10 : Step Nat :=
  { id := "B", dependsOn := ["A"], execute := Except.ok 2,
    compensate := some (Except.ok ()) }

/-- Joint observer behaviour throwing exactly on B's `step:completed`. -/
def throwOnBCompleted : WEvent → Except String Unit := fun ev =>
  if ev = { type := EventType.step_completed, stepId := some "B" } then
    Except.error "observer boom"
  else Except.ok ()

/-- The two-step workflow with the throwing observer registered. -/
def cfgObsThrow : Config Nat :=
  { steps := [stA10, stB10], hasObservers := true, onEvent := throwOnBCompleted }

/-- Witness of C10 at the concrete two-step workflow whose observer throws
on B's `step:completed` event. -/
theorem observer_throw_on_completed_witness :
    cfgObsThrow.hasObservers = true ∧
    ((execute cfgObsThrow false).retval = Except.error "observer boom" ∧
     lookupResult (execute cfgObsThrow false).stepResults stB10.id = some 2 ∧
     statusOf (execute cfgObsThrow false).snapshots stB10.id = some Status.failed ∧
     MetricCall.step stB10.id false ∈ (execute cfgObsThrow false).metricCalls ∧
     (execute cfgObsThrow false).compCalls =
       (([stA10].filter (fun s => s.compensate.isSome)).map Step.id).reverse ∧
     stB10.id ∉ (execute cfgObsThrow false).compCalls) :=
  ⟨rfl,
    observer_throw_on_completed cfgObsThrow [stA10] [] stB10 (fun _ => 1) 2
      "observer boom" false rfl (by decide) (by decide) rfl
      (by
        intro s hs c hc
        rw [List.mem_singleton] at hs
        subst hs
        exact (Option.some.inj hc).symm)
      rfl rfl
      (fun ev hne => if_neg hne)
      (fun m h => nomatch h)⟩

end Workflow
